import Mathlib

/-!
# Verification of the video-insights service

Shallow embedding of the three source files of the repository
(`app/main.py`, `app/youtube_client.py`, `app/nlp_pipeline.py`) and proofs
about them.

Modelling conventions:
* Machine floats (`start`/`duration` of a transcript segment) are carried as
  rationals; the program never computes with them, it only stores the
  literals `0.0` or opaque provider-supplied values.
* The Redis store holds JSON-encoded strings; since the program always
  round-trips through `json.dumps`/`json.loads` of values it produced
  itself, the store is modelled as holding the structured values directly.
* External effects (the caption provider, the metadata lookup, the LLM
  generator, audio transcription) are modelled as explicit outcome
  parameters; an escaping Python exception is an `Except.error`.
* Python `str` is modelled as `String`/`List Char`; `str.lower` is mapped
  to `Char.toLower` per character (identical on ASCII, which is all the
  program's own string constants use).
-/

namespace Spec2Proof

/-! ## Data model -/

/-- One transcript segment: `{"text": ..., "start": ..., "duration": ...}`. -/
structure Segment where
  text : String
  start : Rat
  duration : Rat
deriving DecidableEq, Repr

/-- One topic record produced by `extract_insights`:
`{"name": ..., "sentiment": ..., "insights": [...]}`. -/
structure InsightRecord where
  name : String
  sentiment : String
  insights : List String
deriving DecidableEq, Repr

/-! ## `app/nlp_pipeline.py` -/

/-- The `positive_words` list of `analyze_sentiment_simple`
(`nlp_pipeline.py` lines 150-156), duplicates included: `"advantage"` and
`"progress"` occur twice in the source and therefore count double. -/
def positive_words : List String :=
  ["benefit", "advantage", "opportunity", "positive", "good", "great", "excellent",
   "improve", "improvement", "progress", "solution", "success", "successful",
   "effective", "efficient", "sustainable", "innovative", "innovation", "clean",
   "save", "savings", "growth", "advance", "advantage", "beneficial", "better",
   "progress", "promising", "protect", "protection", "reduce", "reduction"]

/-- The `negative_words` list (`nlp_pipeline.py` lines 158-163). -/
def negative_words : List String :=
  ["problem", "challenge", "difficult", "difficulty", "issue", "concern", "risk",
   "threat", "crisis", "damage", "harmful", "negative", "pollute", "pollution",
   "waste", "danger", "dangerous", "hazard", "hazardous", "toxic", "costly",
   "expensive", "fail", "failure", "loss", "deficit", "shortage", "decrease"]

/-- Auxiliary scan for `pyCount`: counts non-overlapping occurrences of a
non-empty pattern, scanning left to right exactly as Python `str.count`;
the second argument is the number of positions still to skip after a
match (a match at a position consumes the whole pattern). -/
def pyCountAux (pat : List Char) : List Char → Nat → Nat
  | [], _ => 0
  | _ :: rest, Nat.succ k => pyCountAux pat rest k
  | c :: rest, 0 =>
    if pat.isPrefixOf (c :: rest) then 1 + pyCountAux pat rest (pat.length - 1)
    else pyCountAux pat rest 0

/-- Python `s.count(pat)`: non-overlapping occurrence count; an empty
pattern matches at every gap (`len(s) + 1`). -/
def pyCount (pat s : List Char) : Nat :=
  if pat.isEmpty then s.length + 1 else pyCountAux pat s 0

/-- `analyze_sentiment_simple(text, topic)` (`nlp_pipeline.py` lines
136-178).  The float comparisons `p > n * 1.5` and `n > p * 1.5` are exact
for the integer counts involved and are rendered as `2*p > 3*n` /
`2*n > 3*p`.  Note the `topic` argument is only logged by the source and
never influences the result. -/
def analyze_sentiment_simple (text : String) (topic : String) : String :=
  let text_lower := String.mk (text.data.map Char.toLower)
  let positive_count := (positive_words.map (fun w => pyCount w.data text_lower.data)).sum
  let negative_count := (negative_words.map (fun w => pyCount w.data text_lower.data)).sum
  if 2 * positive_count > 3 * negative_count then "positive"
  else if 2 * negative_count > 3 * positive_count then "negative"
  else "neutral"

/-- The `topic_insights` table of `extract_insights` (`nlp_pipeline.py`
lines 46-87), in source (insertion) order. -/
def topic_insights : List (String × List String) :=
  [("Climate Change",
    ["Develop a comprehensive carbon footprint tracking system to monitor and reduce greenhouse gas emissions.",
     "Invest in climate resilience measures to prepare facilities for extreme weather events.",
     "Partner with environmental NGOs to support reforestation and carbon offset projects."]),
   ("Renewable Energy",
    ["Transition facilities to solar or wind power through PPAs (Power Purchase Agreements) with renewable providers.",
     "Install on-site renewable energy generation like solar panels to reduce operational costs.",
     "Implement energy storage solutions to maximize renewable energy utilization during peak demand."]),
   ("Waste Management",
    ["Establish a zero-waste-to-landfill policy with specific reduction targets and timelines.",
     "Redesign packaging to use biodegradable materials and minimize single-use plastics.",
     "Implement a comprehensive recycling program with clear labeling and employee training."]),
   ("Carbon Emissions",
    ["Convert company fleet to electric vehicles and install charging infrastructure.",
     "Set science-based targets for emissions reduction aligned with the Paris Agreement.",
     "Implement a carbon pricing mechanism for internal decision-making and investments."]),
   ("Corporate Sustainability",
    ["Integrate ESG (Environmental, Social, Governance) metrics into executive compensation structures.",
     "Publish an annual sustainability report following GRI or SASB standards for transparency.",
     "Establish a cross-functional sustainability committee with C-suite representation."]),
   ("Water Conservation",
    ["Install water-efficient fixtures and implement greywater recycling systems in facilities.",
     "Conduct water footprint assessments for all products and set reduction targets.",
     "Partner with watershed conservation organizations in regions where you operate."]),
   ("Sustainable Supply Chain",
    ["Implement supplier sustainability scorecards and set minimum requirements for vendors.",
     "Reduce transportation emissions through optimized logistics and local sourcing.",
     "Conduct regular sustainability audits of key suppliers and offer improvement resources."]),
   ("Circular Economy",
    ["Design products for disassembly and recyclability to extend their lifecycle.",
     "Establish product take-back programs to recover materials at end of life.",
     "Launch a service-based business model alongside product sales to reduce resource consumption."])]

/-- The topic names of `topic_insights`, in dictionary (insertion) order;
`random.sample` draws the per-request topic selection from this list. -/
def topicKeys : List String := topic_insights.map Prod.fst

/-- `topic_insights.get(topic, [...default two entries...])`
(`nlp_pipeline.py` lines 103-106 and 109-112). -/
def lookupInsights (topic : String) : List String :=
  match topic_insights.lookup topic with
  | some l => l
  | none =>
    ["Consider developing sustainability policies related to " ++ topic ++ ".",
     "Monitor emerging regulations in the " ++ topic ++ " space to ensure compliance."]

/-- `" ".join(segment.get("text", "") for segment in transcript_segments)`
(`nlp_pipeline.py` line 43); every segment built by this program carries a
`"text"` key. -/
def fullText (segments : List Segment) : String :=
  String.intercalate " " (segments.map Segment.text)

/-- The loop body of `extract_insights` for one topic (`nlp_pipeline.py`
lines 94-131).  `gen` is the call `generate_insights_with_gpt(full_text,
topic)` viewed from the caller: `Except.error` is an escaping exception,
which the inner handler (lines 100-106) converts to the predefined topic
insights.  The remainder of the body (`analyze_sentiment_simple`, the
record construction) is pure and total, so the outer per-topic handler
(lines 124-131, producing a `"neutral"` single-insight record) is
unreachable and has no corresponding branch here. -/
def processTopic (openaiOn : Bool) (gen : String → Except String (List String))
    (full_text : String) (topic : String) : InsightRecord :=
  let insights :=
    if openaiOn then
      match gen topic with
      | Except.ok l => l
      | Except.error _ => lookupInsights topic
    else lookupInsights topic
  { name := topic
    sentiment := analyze_sentiment_simple full_text topic
    insights := insights }

/-- `extract_insights(transcript_segments)` (`nlp_pipeline.py` lines
29-134), with its effect parameters made explicit: `openaiOn` is
`OPENAI_API_KEY and OPENAI_AVAILABLE`, `gen` is the GPT generator, and
`selected_topics` is the result of
`random.sample(list(topic_insights.keys()), min(6, len(topic_insights)))`. -/
def extract_insights (openaiOn : Bool)
    (gen : String → String → Except String (List String))
    (selected_topics : List String) (transcript_segments : List Segment) :
    List InsightRecord :=
  let full_text := fullText transcript_segments
  selected_topics.map (fun topic => processTopic openaiOn (gen full_text) full_text topic)

/-- Contract of `random.sample(list(topic_insights.keys()), min(6, 8))`:
a duplicate-free selection of `min 6 8` of the topic keys. -/
def SampleOK (sel : List String) : Prop :=
  sel.length = Nat.min 6 topicKeys.length ∧ sel.Nodup ∧ ∀ t ∈ sel, t ∈ topicKeys

/-! ## The TTL key-value store

The program touches exactly four Redis keys per video identifier
(`status:{id}`, `error:{id}`, `transcript:{id}`, `insights:{id}`), and
every operation of every flow reads and writes only the keys of the one
identifier it was invoked for, so the store is modelled as the projection
to a single identifier's four keys. -/

/-- `{"source": ..., "segments": [...]}` as cached and returned by
`get_transcript`. -/
structure TranscriptData where
  source : String
  segments : List Segment
deriving DecidableEq, Repr

/-- The four keys of one video identifier.  `none` means the key is absent
(never written, deleted, or expired). -/
structure Store where
  status : Option String
  error : Option String
  transcript : Option TranscriptData
  insights : Option (List InsightRecord)
deriving DecidableEq, Repr

/-- The store with no keys set. -/
def initStore : Store := ⟨none, none, none, none⟩

/-- A single Redis write operation issued by the program, with the TTL
(seconds) passed to `setex` recorded for the `set` forms. -/
inductive ROp where
  | delStatus
  | delError
  | setStatus (v : String) (ttl : Nat)
  | setError (v : String) (ttl : Nat)
  | setTranscript (td : TranscriptData) (ttl : Nat)
  | setInsights (l : List InsightRecord) (ttl : Nat)
deriving DecidableEq, Repr

/-- Effect of one Redis operation on the store.  The TTL only bounds how
long a value survives; expiry itself is modelled as a separate
nondeterministic system step. -/
def applyOp (σ : Store) : ROp → Store
  | ROp.delStatus => { σ with status := none }
  | ROp.delError => { σ with error := none }
  | ROp.setStatus v _ => { σ with status := some v }
  | ROp.setError v _ => { σ with error := some v }
  | ROp.setTranscript td _ => { σ with transcript := some td }
  | ROp.setInsights l _ => { σ with insights := some l }

/-- Apply a sequence of Redis operations in order. -/
def applyOps (σ : Store) (ops : List ROp) : Store := ops.foldl applyOp σ

/-! ## `app/youtube_client.py`: transcript acquisition -/

/-- Result of `get_video_details(video_id)` (`youtube_client.py` lines
105-132), an external metadata lookup returning a possibly-empty dict:
each field is `none` when the corresponding key is absent. -/
structure VideoDetails where
  title : Option String
  description : Option String

/-- A one-character string holding the ASCII single-quote (code 39),
used in the fixed mock transcript text. -/
def sqt : String := String.mk [Char.ofNat 39]

/-- First fragment of the titled mock transcript f-string
(`youtube_client.py` lines 375-394). -/
def mockBody1 (title description : String) : String :=
  "\n        Welcome to this discussion on " ++ title ++
  ".\n        \n        " ++ description ++
  "\n        \n        This talk covers important sustainability topics including climate change, renewable energy,\n        waste management, carbon emissions, and sustainable business practices.\n        \n        Companies need to measure and reduce their carbon footprint.\n        Setting science-based targets is critical for aligning with global climate goals.\n        \n        Transitioning from fossil fuels to clean energy sources like solar and wind\n        can significantly reduce environmental impact while often reducing costs in the long term.\n        \n        Implementing circular economy principles can turn waste into resources,\n        reducing landfill use and creating new value streams from what was previously discarded.\n        \n        Thank you for joining this conversation on sustainability. The actions we take today will determine the world we leave\n        for future generations.\n        "

/-- The fixed generic mock transcript (`youtube_client.py` lines
396-416). -/
def mockBody2 : String :=
  "\n        Welcome to this important discussion on sustainability. Today we" ++ sqt ++
  "ll explore how businesses can contribute to a healthier planet.\n        \n        Our first topic is climate change and carbon emissions. Companies need to measure and reduce their carbon footprint.\n        Setting science-based targets is critical for aligning with global climate goals.\n        \n        Next, let" ++ sqt ++
  "s discuss renewable energy. Transitioning from fossil fuels to clean energy sources like solar and wind\n        can significantly reduce environmental impact while often reducing costs in the long term.\n        \n        Waste management is another critical area. Implementing circular economy principles can turn waste into resources,\n        reducing landfill use and creating new value streams from what was previously discarded.\n        \n        Water conservation should be a priority, especially in water-stressed regions. Businesses can implement water-efficient\n        processes and technologies to reduce their water footprint.\n        \n        Finally, sustainable supply chains ensure that environmental and social standards are maintained throughout the entire\n        production process, from raw materials to end products.\n        \n        Thank you for joining this conversation on sustainability. The actions we take today will determine the world we leave\n        for future generations.\n        "

/-- `get_mock_transcript(video_id)` (`youtube_client.py` lines 356-416):
title defaults to `"sustainability topics"` when the key is absent,
description to `""`; the titled template is used only when both are
truthy (non-empty). -/
def get_mock_transcript (details : VideoDetails) : String :=
  let title := details.title.getD "sustainability topics"
  let description := details.description.getD ""
  if title ≠ "" ∧ description ≠ "" then mockBody1 title description
  else mockBody2

/-- Outcome of `fetch_transcript_from_api(video_id)` plus the surrounding
outer `try` of `get_transcript`: the provider call returns a segment list
(possibly empty) or `None`; `err` stands for any exception escaping into
the outer handler of `get_transcript` lines 345-354. -/
inductive FetchOutcome where
  | ok (segments : List Segment)
  | unavailable
  | err (msg : String)

/-- The single-segment mock `TranscriptData` with `source = "mock_data"`
built at `youtube_client.py` lines 298-317. -/
def mockTd (details : VideoDetails) : TranscriptData :=
  ⟨"mock_data", [⟨get_mock_transcript details, 0, 0⟩]⟩

/-- Redis writes of `get_transcript` lines 248-260: clear stale error and
status keys, then set `status=pending` with TTL 3600. -/
def gtPre : List ROp :=
  [ROp.delError, ROp.delStatus, ROp.setStatus "pending" 3600]

/-- Redis writes of `get_transcript` after a cache miss, by fetch
outcome: a successful or mock transcript is cached with TTL 86400; an
escaping exception records `error` and `status=error` with TTL 3600
(lines 276-343 and 345-354). -/
def gtFetchOps (fetch : FetchOutcome) (details : VideoDetails) : List ROp :=
  match fetch with
  | FetchOutcome.ok segs =>
    if segs = [] then [ROp.setTranscript (mockTd details) 86400]
    else [ROp.setTranscript ⟨"youtube_api", segs⟩ 86400]
  | FetchOutcome.unavailable => [ROp.setTranscript (mockTd details) 86400]
  | FetchOutcome.err m => [ROp.setError m 3600, ROp.setStatus "error" 3600]

/-- All Redis writes of one `get_transcript` call, given whether the
transcript cache key was populated at the cache check. -/
def gtOps (cacheHit : Bool) (fetch : FetchOutcome) (details : VideoDetails) : List ROp :=
  gtPre ++ if cacheHit then [] else gtFetchOps fetch details

/-- Return value of `get_transcript` on a cache miss, by fetch outcome:
an empty or missing provider transcript falls back to the mock data
(truthiness of `transcript_list`, line 276); an escaping exception
re-raises (line 354). -/
def gtResultOf (fetch : FetchOutcome) (details : VideoDetails) :
    Except String TranscriptData :=
  match fetch with
  | FetchOutcome.ok segs =>
    if segs = [] then Except.ok (mockTd details)
    else Except.ok ⟨"youtube_api", segs⟩
  | FetchOutcome.unavailable => Except.ok (mockTd details)
  | FetchOutcome.err m => Except.error m

/-- Full observable outcome of one `get_transcript(video_id, redis)`
call: the returned (or raised) value, the resulting store, whether the
primary provider was consulted, and the Redis writes issued. -/
structure GTResult where
  result : Except String TranscriptData
  store : Store
  fetched : Bool
  ops : List ROp

/-- `get_transcript(video_id, redis_client)` (`youtube_client.py` lines
237-354) with the store passed explicitly; all call sites in this
repository pass a Redis client, so only that variant is modelled.  The
explicit `except (TranscriptsDisabled, NoTranscriptFound)` handler at
lines 319-343 is unreachable (those exceptions are already caught inside
`fetch_transcript_from_api`) and behaves identically to the
`transcript_list` falsy branch, which covers it here. -/
def get_transcript (fetch : FetchOutcome) (details : VideoDetails) (σ : Store) :
    GTResult :=
  match (applyOps σ gtPre).transcript with
  | some td => ⟨Except.ok td, applyOps σ gtPre, false, gtPre⟩
  | none =>
    ⟨gtResultOf fetch details,
     applyOps σ (gtPre ++ gtFetchOps fetch details), true,
     gtPre ++ gtFetchOps fetch details⟩

/-! ## `app/main.py`: request flows and the job state machine

Each HTTP flow is rendered as the list of Redis writes it issues, in
program order.  A flow's data-dependent choices (cache hit, fetch
outcome, generator behaviour, sampled topics) are parameters, so the set
of modelled flows over-approximates the set of real executions; safety
invariants proved over all of them hold of the real system. -/

/-- Parameters fixing one execution of the background task
`process_video` (`main.py` lines 166-199). -/
structure TaskParams where
  cacheHit : Bool
  cachedTd : TranscriptData
  fetch : FetchOutcome
  details : VideoDetails
  openaiOn : Bool
  gen : String → String → Except String (List String)
  sel : List String

/-- The transcript value `fetch_transcript` hands to the background task
(or the exception it raises). -/
def taskTranscript (p : TaskParams) : Except String TranscriptData :=
  if p.cacheHit then Except.ok p.cachedTd else gtResultOf p.fetch p.details

/-- Redis writes of one run of the background task `process_video`
(`main.py` lines 166-199): clear stale keys, `status=processing`, the
writes of the inner `get_transcript` call, then either insights (TTL
86400) followed by `status=completed` (TTL 3600), or on any exception
`error` followed by `status=error` (TTL 3600 each). -/
def taskOps (p : TaskParams) : List ROp :=
  [ROp.delStatus, ROp.delError, ROp.setStatus "processing" 3600] ++
  gtOps p.cacheHit p.fetch p.details ++
  match taskTranscript p with
  | Except.ok td =>
    [ROp.setInsights (extract_insights p.openaiOn p.gen p.sel td.segments) 86400,
     ROp.setStatus "completed" 3600]
  | Except.error m => [ROp.setError m 3600, ROp.setStatus "error" 3600]

/-- Redis writes of the submit endpoint `POST /videos/process` (`main.py`
lines 46-69) before it schedules the background task. -/
def submitOps : List ROp :=
  [ROp.delStatus, ROp.delError, ROp.setStatus "pending" 3600]

/-- Redis writes of the synchronous endpoint `POST /process` (`main.py`
lines 106-164): clear stale keys, then the writes of its
`fetch_transcript` call; it caches no insights and never writes
`completed`. -/
def syncOps (cacheHit : Bool) (fetch : FetchOutcome) (details : VideoDetails) :
    List ROp :=
  [ROp.delStatus, ROp.delError] ++ gtOps cacheHit fetch details

/-- The store-writing flows this program can start. -/
def ValidFlow (t : List ROp) : Prop :=
  t = submitOps ∨
  (∃ p : TaskParams, SampleOK p.sel ∧ t = taskOps p) ∨
  (∃ cacheHit fetch details, t = syncOps cacheHit fetch details)

/-- A system configuration: the store plus the remaining write sequences
of the flows currently in progress (FastAPI background tasks and request
handlers may interleave at store-operation granularity). -/
structure Sys where
  store : Store
  threads : List (List ROp)

/-- Small-step semantics: start a valid flow, execute the next write of
any in-progress flow, or expire one of the short-TTL bookkeeping keys
(`status:`/`error:`, TTL 3600).  The long-TTL keys (`transcript:`/
`insights:`, TTL 86400) have no expiry step: a `completed` status is
written immediately after its insights with a 23-hour-shorter TTL, so in
every timed execution the status key expires strictly before the insights
it points to — the untimed model encodes that by letting the short-TTL
keys vanish at any moment and the long-TTL keys at none. -/
inductive SysStep : Sys → Sys → Prop
  | spawn (s : Sys) (t : List ROp) (h : ValidFlow t) :
      SysStep s ⟨s.store, t :: s.threads⟩
  | exec (σ : Store) (l1 : List (List ROp)) (op : ROp) (rest : List ROp)
      (l2 : List (List ROp)) :
      SysStep ⟨σ, l1 ++ (op :: rest) :: l2⟩ ⟨applyOp σ op, l1 ++ rest :: l2⟩
  | expireStatus (s : Sys) : SysStep s ⟨{ s.store with status := none }, s.threads⟩
  | expireError (s : Sys) : SysStep s ⟨{ s.store with error := none }, s.threads⟩

/-- The idle initial system: empty store, no flow in progress. -/
def initSys : Sys := ⟨initStore, []⟩

/-- Configurations the service can reach. -/
def Reachable (s : Sys) : Prop := Relation.ReflTransGen SysStep initSys s

/-- The insights key holds a non-empty record list. -/
def insOK (σ : Store) : Prop := ∃ l, σ.insights = some l ∧ l ≠ []

/-- Every insights write in the sequence carries a non-empty payload. -/
def goodInsWrites (t : List ROp) : Prop :=
  ∀ l ttl, ROp.setInsights l ttl ∈ t → l ≠ []

/-- `true` iff the sequence performs no `status=completed` write before
its first insights write. -/
def selfCovered : List ROp → Bool
  | [] => true
  | ROp.setInsights _ _ :: _ => true
  | ROp.setStatus v _ :: rest => if v = "completed" then false else selfCovered rest
  | _ :: rest => selfCovered rest

/-- An operation that neither writes insights nor writes a `completed`
status; such operations cannot invalidate the completed-implies-insights
invariant from a covered position. -/
def neutralOp : ROp → Bool
  | ROp.setInsights _ _ => false
  | ROp.setStatus v _ => !(v == "completed")
  | _ => true

/-- Inductive invariant: a `completed` status implies non-empty insights,
and every in-progress flow writes only non-empty insights payloads and
will not write `completed` before insights are durable. -/
def Inv (s : Sys) : Prop :=
  (s.store.status = some "completed" → insOK s.store) ∧
  ∀ t ∈ s.threads, goodInsWrites t ∧ (selfCovered t = true ∨ insOK s.store)

/-- The status values written by a sequence, in order. -/
def statusWrites (t : List ROp) : List String :=
  t.filterMap fun op =>
    match op with
    | ROp.setStatus v _ => some v
    | _ => none

/-- The poller endpoint `GET /videos/insights/{video_id}` (`main.py`
lines 80-94): 404 when status is absent, 400 when not completed, 404 when
completed but insights missing, else the insights.  Errors carry the HTTP
status code and detail. -/
def get_video_insights (σ : Store) : Except (Nat × String) (List InsightRecord) :=
  match σ.status with
  | none => Except.error (404, "Video not found")
  | some st =>
    if st ≠ "completed" then Except.error (400, "Video processing is " ++ st)
    else
      match σ.insights with
      | none => Except.error (404, "Insights not found")
      | some ins => Except.ok ins

/-! ## `app/youtube_client.py`: the Whisper fallback -/

/-- Python return value of `fallback_whisper`: despite its
`List[Dict[str, Any]]` annotation, two branches of the source return a
bare string, so the model distinguishes the two shapes. -/
inductive WhisperReturn where
  | segs (l : List Segment)
  | raw (s : String)
deriving DecidableEq

/-- `fallback_whisper(video_id)` (`youtube_client.py` lines 158-235).
`ytDlp` is `YT_DLP_AVAILABLE`, `openaiAvail` is `OPENAI_AVAILABLE`,
`openaiKey` is `OPENAI_API_KEY` (empty string when unset, matching Python
falsiness), `audio` is the download-and-transcribe pipeline: `Except.ok
text` is the Whisper response text, `Except.error` any exception caught
at line 226.  Note lines 173 and 177 return `get_mock_transcript(...)`
directly — a bare string — while the exception handler at lines 230-235
wraps the mock text as a single zero-timestamp segment. -/
def fallback_whisper (ytDlp openaiAvail : Bool) (openaiKey : String)
    (audio : Except String String) (details : VideoDetails) : WhisperReturn :=
  if ¬ytDlp then WhisperReturn.raw (get_mock_transcript details)
  else if ¬openaiAvail ∨ openaiKey = "" then WhisperReturn.raw (get_mock_transcript details)
  else
    match audio with
    | Except.ok text => WhisperReturn.segs [⟨text, 0, 0⟩]
    | Except.error _ => WhisperReturn.segs [⟨get_mock_transcript details, 0, 0⟩]

/-! ## `app/youtube_client.py`: URL parsing (`extract_video_id`)

`extract_video_id` delegates to `urllib.parse.urlparse`, `parse_qs` and
`re.search`; those library functions are embedded below at the fidelity
the function exercises.  `\w` of the regex character class `[\w-]` is
modelled as ASCII alphanumerics plus underscore, and percent-decoding in
`unquote_plus` decodes single bytes; neither narrowing is observable on
the byte-range inputs the claims quantify over. -/

/-- Python `s.split(sep, 1)`: split at the first occurrence of `sep`,
`none` when absent. -/
def splitFirst (sep : Char) : List Char → Option (List Char × List Char)
  | [] => none
  | c :: rest =>
    if c = sep then some ([], rest)
    else
      match splitFirst sep rest with
      | some (a, b) => some (c :: a, b)
      | none => none

/-- Accumulator form of Python `s.split(sep)`. -/
def splitAllAux (sep : Char) : List Char → List Char → List (List Char)
  | [], acc => [acc.reverse]
  | c :: rest, acc =>
    if c = sep then acc.reverse :: splitAllAux sep rest []
    else splitAllAux sep rest (c :: acc)

/-- Python `s.split(sep)` (unbounded, single-character separator). -/
def splitAll (sep : Char) (l : List Char) : List (List Char) :=
  splitAllAux sep l []

/-- Python `s.strip(c)` for a single strip character. -/
def stripChar (c : Char) (l : List Char) : List Char :=
  ((l.dropWhile (· = c)).reverse.dropWhile (· = c)).reverse

/-- Contiguous-substring test, Python `needle in hay` on strings. -/
def isSubOf (needle : List Char) : List Char → Bool
  | [] => needle.isEmpty
  | c :: rest => needle.isPrefixOf (c :: rest) || isSubOf needle rest

/-- Characters permitted in a URL scheme (`urllib.parse.scheme_chars`). -/
def schemeChar (c : Char) : Bool :=
  c.isAlpha || c.isDigit || c == '+' || c == '-' || c == '.'

/-- Characters that do not end the authority component
(`_splitnetloc` scans up to the first of `/?#`). -/
def netChar (c : Char) : Bool :=
  !(c == '/' || c == '?' || c == '#')

/-- The scheme step of `urllib.parse.urlsplit`: split at the first `:`;
accept it as a scheme only when non-empty, starting with an ASCII letter
and consisting of scheme characters; otherwise leave the URL intact. -/
def schemeSplit (url : List Char) : List Char × List Char :=
  match splitFirst ':' url with
  | some (pre, post) =>
    match pre with
    | [] => ([], url)
    | c :: _ =>
      if c.isAlpha && pre.all schemeChar then (pre.map Char.toLower, post)
      else ([], url)
  | none => ([], url)

/-- The netloc step of `urllib.parse.urlsplit`: after a leading `//`,
the authority runs to the first `/`, `?` or `#`. -/
def netlocSplit (rest : List Char) : List Char × List Char :=
  match rest with
  | '/' :: '/' :: after => (after.takeWhile netChar, after.dropWhile netChar)
  | _ => ([], rest)

/-- `urllib.parse._splitparams`: split parameters after the last `;` of
the final path segment (only called when the path contains `;`). -/
def splitparams (p : List Char) : List Char × List Char :=
  if p.contains '/' then
    let lastSeg := (p.reverse.takeWhile (· ≠ '/')).reverse
    let stem := p.take (p.length - lastSeg.length)
    match splitFirst ';' lastSeg with
    | some (a, b) => (stem ++ a, b)
    | none => (p, [])
  else
    match splitFirst ';' p with
    | some (a, b) => (a, b)
    | none => (p, [])

/-- The components of `urllib.parse.urlparse`'s result that
`extract_video_id` reads. -/
structure UrlParts where
  scheme : List Char
  netloc : List Char
  path : List Char
  params : List Char
  query : List Char
  fragment : List Char
deriving DecidableEq, Repr

/-- Hex digit value for percent-decoding and hextet validation. -/
def hexVal (c : Char) : Option Nat :=
  if '0' ≤ c ∧ c ≤ '9' then some (c.toNat - '0'.toNat)
  else if 'a' ≤ c ∧ c ≤ 'f' then some (c.toNat - 'a'.toNat + 10)
  else if 'A' ≤ c ∧ c ≤ 'F' then some (c.toNat - 'A'.toNat + 10)
  else none

/-- One dotted-decimal octet is valid (`ipaddress._BaseV4._parse_octet`):
non-empty, ASCII decimal digits only, at most 3 characters, no leading
zero except `"0"` itself, and value at most 255. -/
def parse_octet_ok (s : List Char) : Bool :=
  !s.isEmpty && s.all Char.isDigit && s.length ≤ 3 &&
  (s == ['0'] || s.headD '0' != '0') &&
  s.foldl (fun a c => 10 * a + (c.toNat - 48)) 0 ≤ 255

/-- A dotted-quad IPv4 address string is valid
(`ipaddress.IPv4Address.__init__` via `_ip_int_from_string`): no `/`,
non-empty, exactly four `.`-separated valid octets. -/
def isIPv4 (s : List Char) : Bool :=
  !s.contains '/' && !s.isEmpty &&
  (splitAll '.' s).length == 4 && (splitAll '.' s).all parse_octet_ok

/-- The 32-bit value of a valid dotted quad. -/
def ipv4Val (s : List Char) : Nat :=
  (splitAll '.' s).foldl
    (fun acc oct => 256 * acc + oct.foldl (fun a c => 10 * a + (c.toNat - 48)) 0) 0

/-- Lowercase hexadecimal digit character. -/
def hexDigit (n : Nat) : Char :=
  if n < 10 then Char.ofNat (48 + n) else Char.ofNat (87 + n)

/-- Python `'%x' % n` for `n < 2^16`: lowercase hex without leading
zeros (`"0"` for zero). -/
def natToHex16 (n : Nat) : List Char :=
  let ds := [n / 4096 % 16, n / 256 % 16, n / 16 % 16, n % 16].map hexDigit
  match ds.dropWhile (· == '0') with
  | [] => ['0']
  | l => l

/-- One IPv6 hextet is valid (`ipaddress._BaseV6._parse_hextet`): hex
digits only, at most 4 characters, and non-empty (the empty string
passes the digit and length checks but `int('', 16)` raises). -/
def parse_hextet_ok (s : List Char) : Bool :=
  s.all (fun c => (hexVal c).isSome) && s.length ≤ 4 && !s.isEmpty

/-- The hextet-list step of `ipaddress._BaseV6._ip_int_from_string`
after the IPv4-suffix conversion: at most 9 parts; at most one empty
interior part (the `::` skip); an empty endpoint only directly beside
the skip (`^:` requires `^::`, `:$` requires `::$`); with a skip, at
least one zero group actually skipped (`parts_hi + parts_lo ≤ 7`);
without one, exactly 8 non-empty parts; every parsed part a valid
hextet. -/
def ipv6_parts_ok (parts : List (List Char)) : Bool :=
  if parts.length > 9 then false
  else
    let interior := (parts.drop 1).take (parts.length - 2)
    let empties := interior.countP fun l => l.isEmpty
    if 2 ≤ empties then false
    else if empties = 1 then
      let skipIndex := (interior.findIdx fun l => l.isEmpty) + 1
      let hi := if (parts.headD []).isEmpty then skipIndex - 1 else skipIndex
      let lo0 := parts.length - skipIndex - 1
      let lo := if (parts.getLastD []).isEmpty then lo0 - 1 else lo0
      if (parts.headD []).isEmpty ∧ hi ≠ 0 then false
      else if (parts.getLastD []).isEmpty ∧ lo ≠ 0 then false
      else if 8 ≤ hi + lo then false
      else (parts.take hi).all parse_hextet_ok &&
        (parts.drop (parts.length - lo)).all parse_hextet_ok
    else
      if parts.length = 8 ∧ (parts.headD []).isEmpty = false ∧
          (parts.getLastD []).isEmpty = false
      then parts.all parse_hextet_ok else false

/-- `ipaddress._BaseV6._ip_int_from_string` as a validity predicate:
non-empty, at least 3 `:`-separated parts, a dotted-quad suffix (a last
part containing `.`) converted to its two hextets, then the hextet-list
check. -/
def ipv6_core_ok (a : List Char) : Bool :=
  if a.isEmpty then false
  else
    let parts := splitAll ':' a
    if parts.length < 3 then false
    else
      let lastPart := parts.getLastD []
      if lastPart.contains '.' then
        if isIPv4 lastPart then
          ipv6_parts_ok (parts.dropLast ++
            [natToHex16 (ipv4Val lastPart / 65536),
             natToHex16 (ipv4Val lastPart % 65536)])
        else false
      else ipv6_parts_ok parts

/-- `ipaddress.IPv6Address.__init__` as a validity predicate: no `/`,
an optional `%scope` split at the first `%` (the scope must be
non-empty and contain no second `%`), then the core address check. -/
def isIPv6 (s : List Char) : Bool :=
  !s.contains '/' &&
  (match splitFirst '%' s with
   | none => ipv6_core_ok s
   | some (addr, scope) =>
     !scope.isEmpty && !scope.contains '%' && ipv6_core_ok addr)

/-- `re.match` of the IPvFuture pattern `\Av[a-fA-F0-9]+\..+\Z`: a
`v`, a non-empty hex run, a literal dot (which can only follow the
maximal hex run, `.` not being a hex digit), and a non-empty remainder
every character of which the regex `.` can match (no newline). -/
def ipvFuture_ok (h : List Char) : Bool :=
  match h with
  | [] => false
  | c :: t =>
    let r := t.takeWhile fun x => (hexVal x).isSome
    c == 'v' && !r.isEmpty && (t.drop r.length).headD ' ' == '.' &&
    !(t.drop (r.length + 1)).isEmpty &&
    !(t.drop (r.length + 1)).contains (Char.ofNat 10)

/-- The apostrophe character. -/
def apos : Char := Char.ofNat 39

/-- One character of Python `repr` of an ASCII string under quote `q`:
escape the backslash and the quote, `\t`/`\n`/`\r` escapes, `\xhh`
for the remaining control characters, everything else verbatim. -/
def pyReprChar (q c : Char) : List Char :=
  if c == Char.ofNat 92 then [Char.ofNat 92, Char.ofNat 92]
  else if c == q then [Char.ofNat 92, q]
  else if c == Char.ofNat 9 then [Char.ofNat 92, 't']
  else if c == Char.ofNat 10 then [Char.ofNat 92, 'n']
  else if c == Char.ofNat 13 then [Char.ofNat 92, 'r']
  else if c.toNat < 32 ∨ c.toNat = 127 then
    [Char.ofNat 92, 'x', hexDigit (c.toNat / 16), hexDigit (c.toNat % 16)]
  else [c]

/-- Python `repr` of an ASCII string: single quotes, or double quotes
when the string holds a single quote but no double quote. -/
def pyRepr (s : List Char) : String :=
  let q := if s.contains apos && !s.contains '"' then '"' else apos
  String.mk (q :: s.foldr (fun c acc => pyReprChar q c ++ acc) [q])

/-- `urllib.parse._check_bracketed_host`: a host starting with `v` must
match the IPvFuture pattern; any other host must be a valid IP address
(`ipaddress.ip_address`, which tries IPv4 before IPv6 and swallows
their specific errors into its generic message) and must not be an
IPv4 one. -/
def check_bracketed_host (h : List Char) : Except String Unit :=
  if h.headD ' ' == 'v' then
    if ipvFuture_ok h then Except.ok ()
    else Except.error "IPvFuture address is invalid"
  else
    if isIPv4 h then Except.error "An IPv4 address cannot be in brackets"
    else if isIPv6 h then Except.ok ()
    else Except.error
      (pyRepr h ++ " does not appear to be an IPv4 or IPv6 address")

/-- `netloc.partition('[')[2].partition(']')[0]`: the text after the
first `[` and before the next `]` (empty when `[` is absent, the whole
remainder when no `]` follows, exactly as `partition` yields). -/
def bracketedHost (netloc : List Char) : List Char :=
  let after := match splitFirst '[' netloc with
    | some (_, post) => post
    | none => []
  match splitFirst ']' after with
  | some (pre, _) => pre
  | none => after

/-- `urllib.parse.urlparse(url)` (scheme, authority, fragment, query and
parameter splitting, in CPython's order), including the `ValueError`s of
`urlsplit`: `Invalid IPv6 URL` for an authority with an unbalanced
square bracket, and the `_check_bracketed_host` errors for a bracketed
host that is no valid IPv6/IPvFuture address.  The embedding covers
ASCII input: the later `_checknetloc` NFKC re-check returns immediately
for an ASCII (or empty) authority, and the WHATWG control-character
stripping at entry is the identity on input free of ASCII controls and
leading spaces. -/
def urlparseChars (url : List Char) : Except String UrlParts :=
  let sp := schemeSplit url
  let nl := netlocSplit sp.2
  if (nl.1.contains '[' ∧ ¬nl.1.contains ']') ∨
     (nl.1.contains ']' ∧ ¬nl.1.contains '[') then
    Except.error "Invalid IPv6 URL"
  else
    let rest : Except String UrlParts :=
      let fr := match splitFirst '#' nl.2 with
        | some (a, b) => (a, b)
        | none => (nl.2, [])
      let qu := match splitFirst '?' fr.1 with
        | some (a, b) => (a, b)
        | none => (fr.1, [])
      let pp := if qu.1.contains ';' then splitparams qu.1 else (qu.1, [])
      Except.ok ⟨sp.1, nl.1, pp.1, pp.2, qu.2, fr.2⟩
    if nl.1.contains '[' ∧ nl.1.contains ']' then
      match check_bracketed_host (bracketedHost nl.1) with
      | Except.error e => Except.error e
      | Except.ok _ => rest
    else rest

/-- Scanner for `unquotePlus`; the second argument is the number of
already-consumed lookahead characters still to skip (2 after a valid
percent escape). -/
def unquoteAux : List Char → Nat → List Char
  | [], _ => []
  | _ :: rest, Nat.succ k => unquoteAux rest k
  | c :: rest, 0 =>
    if c = '+' then ' ' :: unquoteAux rest 0
    else
      if c = '%' then
        match rest with
        | h1 :: h2 :: _ =>
          match hexVal h1, hexVal h2 with
          | some a, some b => Char.ofNat (16 * a + b) :: unquoteAux rest 2
          | _, _ => '%' :: unquoteAux rest 0
        | _ => '%' :: unquoteAux rest 0
      else c :: unquoteAux rest 0

/-- `urllib.parse.unquote_plus` on the byte range: `+` becomes space,
valid `%xx` escapes decode, malformed escapes pass through. -/
def unquotePlus (l : List Char) : List Char := unquoteAux l 0

/-- `urllib.parse.parse_qsl` with default arguments: split the query on
`&`, skip empty chunks, chunks without `=` and blank values, and
unquote names and values. -/
def parseQsl (qs : List Char) : List (List Char × List Char) :=
  (splitAll '&' qs).filterMap fun chunk =>
    if chunk = [] then none
    else
      match splitFirst '=' chunk with
      | none => none
      | some (n, v) =>
        if v = [] then none else some (unquotePlus n, unquotePlus v)

/-- `parse_qs(query)['v'][0]` guarded by `'v' in query_params`
(`youtube_client.py` lines 72-76): the first non-blank `v` value, if
any. -/
def qsV (qs : List Char) : Option (List Char) :=
  ((parseQsl qs).filter fun p => p.1 == ['v']).head?.map Prod.snd

/-- The regex class `[\w-]` (ASCII model of `\w`). -/
def wordChar (c : Char) : Bool :=
  c.isAlphanum || c == '_' || c == '-'

/-- Characters that can appear in the identifier region of a URL the
regex fallback scans past: `[\w-]` characters and the path separator.
Every fallback pattern literal contains a dot, which is not benign, so no
pattern can match inside a benign region. -/
def benignChar (c : Char) : Bool :=
  wordChar c || c == '/'

/-- Try the alternatives of one pattern at one start position: the
literal prefix must match and be followed by at least one `[\w-]`
character; the capture is the maximal `[\w-]` run (regex greediness). -/
def reTry (lits : List (List Char)) (s : List Char) : Option (List Char) :=
  lits.findSome? fun lit =>
    if lit.isPrefixOf s then
      match s.drop lit.length with
      | [] => none
      | a :: _ =>
        if wordChar a then some ((s.drop lit.length).takeWhile wordChar)
        else none
    else none

/-- `re.search` for a pattern of the shape `(?:lit₁|lit₂|…)([\w-]+)`:
scan start positions left to right, trying the alternatives in order at
each position. -/
def reFind (lits : List (List Char)) : List Char → Option (List Char)
  | [] => none
  | c :: rest =>
    match reTry lits (c :: rest) with
    | some cap => some cap
    | none => reFind lits rest

/-- The literal alternatives of the five regex fallback patterns of
`extract_video_id` (`youtube_client.py` lines 85-91), in order. -/
def patterns : List (List (List Char)) :=
  [["youtube.com/watch?v=".data, "youtu.be/".data],
   ["youtube.com/shorts/".data],
   ["youtube.com/live/".data],
   ["youtube.com/embed/".data],
   ["youtube.com/v/".data]]

/-- The regex fallback loop (`youtube_client.py` lines 93-98): first
pattern that matches anywhere in the raw URL wins. -/
def reFallback (url : List Char) : Option (List Char) :=
  patterns.findSome? fun p => reFind p url

/-- The URL-shape dispatch of `extract_video_id` (`youtube_client.py`
lines 62-82): `some` is an early `return`, `none` falls through to the
regex patterns.  In the shorts/live branch the `startswith` guard makes
the third `split('/')` component exist, so the `getD` default is
unreachable. -/
def pathBranch (u : UrlParts) : Option (List Char) :=
  if isSubOf "youtu.be".data u.netloc then some (stripChar '/' u.path)
  else
    if isSubOf "youtube.com".data u.netloc || isSubOf "m.youtube.com".data u.netloc then
      if u.path = "/watch".data then qsV u.query
      else
        if "/shorts/".data.isPrefixOf u.path || "/live/".data.isPrefixOf u.path then
          some ((splitAll '/' u.path).getD 2 [])
        else none
    else none

/-- `extract_video_id(url)` (`youtube_client.py` lines 47-103).  The
only way it fails is the `ValueError` escaping from `urlparse`; every
other input produces an identifier, with the hardcoded demo identifier
`"D9Ihs241zeg"` as last resort. -/
def extract_video_id (url : String) : Except String String :=
  match urlparseChars url.data with
  | Except.error e => Except.error e
  | Except.ok u =>
    match pathBranch u with
    | some vid => Except.ok (String.mk vid)
    | none =>
      match reFallback url.data with
      | some vid => Except.ok (String.mk vid)
      | none => Except.ok "D9Ihs241zeg"

/-! ## Concrete example data -/

/-- A generator that raises for the `"Climate Change"` topic and succeeds
with a single insight for every other topic. -/
def genEx : String → String → Except String (List String) :=
  fun _ t => if t = "Climate Change" then Except.error "boom" else Except.ok ["x"]

/-- A concrete admissible topic selection: the first six topic keys. -/
def selEx : List String :=
  ["Climate Change", "Renewable Energy", "Waste Management", "Carbon Emissions",
   "Corporate Sustainability", "Water Conservation"]

/-- A one-segment transcript whose text scores positive sentiment. -/
def segsEx : List Segment := [⟨"good good", 0, 0⟩]

/-- The insight batch for the example transcript with the failing
generator. -/
def resEx : List InsightRecord := extract_insights true genEx selEx segsEx

/-- The example batch record for the failing topic. -/
def recA : InsightRecord :=
  processTopic true (genEx (fullText segsEx)) (fullText segsEx) "Climate Change"

/-- The example batch record for a succeeding topic. -/
def recB : InsightRecord :=
  processTopic true (genEx (fullText segsEx)) (fullText segsEx) "Renewable Energy"

/-- Concrete background-task parameters: cache miss, primary provider
reports no transcript, no metadata, no LLM credentials. -/
def p0 : TaskParams :=
  ⟨false, ⟨"", []⟩, FetchOutcome.unavailable, ⟨none, none⟩, false,
   fun _ _ => Except.ok ["x"], selEx⟩

/-- The system after one full successful background-task run. -/
def sysEx : Sys := ⟨applyOps initStore (taskOps p0), [[]]⟩

/-! # Theorems -/

/-! ## Generic list helpers -/

/-- A successful association-list lookup returns the value of some
entry. -/
theorem lookup_mem_snd {α β : Type} [BEq α] (l : List (α × β)) (k : α) (v : β)
    (h : l.lookup k = some v) : ∃ p ∈ l, p.2 = v := by
  induction l with
  | nil => simp [List.lookup] at h
  | cons a as ih =>
    rw [List.lookup] at h
    by_cases hk : (k == a.1) = true
    · rw [hk] at h
      exact ⟨a, List.mem_cons_self _ _, by simpa using h⟩
    · rw [Bool.not_eq_true] at hk
      rw [hk] at h
      obtain ⟨p, hp, hv⟩ := ih h
      exact ⟨p, List.mem_cons_of_mem _ hp, hv⟩

/-! ## `nlp_pipeline` lemmas -/

/-- Every insights list `extract_insights` can fall back to is
non-empty. -/
theorem lookupInsights_ne_nil (topic : String) : lookupInsights topic ≠ [] := by
  unfold lookupInsights
  cases h : topic_insights.lookup topic with
  | none => simp
  | some l =>
    obtain ⟨p, hp, hv⟩ := lookup_mem_snd _ _ _ h
    have hne : ∀ q ∈ topic_insights, q.2 ≠ ([] : List String) := by decide
    simpa [hv] using hne p hp

/-- The keyword sentiment analyzer only returns the three labels. -/
theorem analyze_sentiment_labels (text topic : String) :
    analyze_sentiment_simple text topic = "positive" ∨
    analyze_sentiment_simple text topic = "negative" ∨
    analyze_sentiment_simple text topic = "neutral" := by
  unfold analyze_sentiment_simple
  dsimp only
  split
  · left; rfl
  · split
    · right; left; rfl
    · right; right; rfl

/-- The per-topic record always carries a non-empty insights list,
provided the generator never succeeds with an empty one (which
`generate_insights_with_gpt` guarantees, lines 319-329 of
`nlp_pipeline.py`). -/
theorem processTopic_insights_ne_nil (openaiOn : Bool)
    (gen : String → Except String (List String)) (full_text topic : String)
    (hgen : ∀ t l, gen t = Except.ok l → l ≠ []) :
    (processTopic openaiOn gen full_text topic).insights ≠ [] := by
  unfold processTopic
  dsimp only
  split
  · cases h : gen topic with
    | ok l => simpa [h] using hgen topic l h
    | error m => simpa [h] using lookupInsights_ne_nil topic
  · simpa using lookupInsights_ne_nil topic

/-- The batch has one record per selected topic. -/
theorem extract_insights_length (openaiOn : Bool)
    (gen : String → String → Except String (List String))
    (sel : List String) (segs : List Segment) :
    (extract_insights openaiOn gen sel segs).length = sel.length := by
  simp [extract_insights]

/-- There are eight predefined topics. -/
theorem topicKeys_length : topicKeys.length = 8 := by decide

/-- The example selection is an admissible `random.sample` result. -/
theorem sampleOK_selEx : SampleOK selEx := by
  unfold SampleOK
  decide

/-- The name field of a per-topic record is the topic. -/
theorem processTopic_name (openaiOn : Bool)
    (gen : String → Except String (List String)) (ft t : String) :
    (processTopic openaiOn gen ft t).name = t := by
  simp only [processTopic]

/-- The sentiment field of a per-topic record is the keyword analyzer's
verdict on the full text. -/
theorem processTopic_sentiment (openaiOn : Bool)
    (gen : String → Except String (List String)) (ft t : String) :
    (processTopic openaiOn gen ft t).sentiment = analyze_sentiment_simple ft t := by
  simp only [processTopic]

/-- The example generator only ever succeeds with `["x"]`. -/
theorem genEx_ok_ne_nil : ∀ ft t l, genEx ft t = Except.ok l → l ≠ [] := by
  intro ft t l h
  simp only [genEx] at h
  split at h
  · exact Except.noConfusion h
  · simp only [Except.ok.injEq] at h
    subst h
    simp

/-! ## Claim C9 -/

/-- **C9.** For every list of transcript segments (and every admissible
topic sample and generator — `random.sample` always picks
`min 6 8 = 6` topics, and `generate_insights_with_gpt` never succeeds
with an empty list), `extract_insights` returns exactly six records, and
every record has a sentiment among `positive`/`negative`/`neutral` and a
non-empty insights list. -/
theorem C9_batch_shape (openaiOn : Bool)
    (gen : String → String → Except String (List String))
    (sel : List String) (segs : List Segment)
    (hsel : SampleOK sel)
    (hgen : ∀ ft t l, gen ft t = Except.ok l → l ≠ []) :
    (extract_insights openaiOn gen sel segs).length = 6 ∧
    ∀ r ∈ extract_insights openaiOn gen sel segs,
      (r.sentiment = "positive" ∨ r.sentiment = "negative" ∨
       r.sentiment = "neutral") ∧
      r.insights ≠ [] := by
  constructor
  · rw [extract_insights_length, hsel.1, topicKeys_length]
    decide
  · intro r hr
    simp only [extract_insights] at hr
    obtain ⟨t, ht, rfl⟩ := List.mem_map.mp hr
    constructor
    · simpa [processTopic] using analyze_sentiment_labels (fullText segs) t
    · exact processTopic_insights_ne_nil _ _ _ _ fun t' l h => hgen (fullText segs) t' l h

/-- Witness for C9 at the concrete example instance. -/
theorem C9_batch_shape_witness :
    SampleOK selEx ∧ (∀ ft t l, genEx ft t = Except.ok l → l ≠ []) ∧
    ((extract_insights true genEx selEx segsEx).length = 6 ∧
     ∀ r ∈ extract_insights true genEx selEx segsEx,
       (r.sentiment = "positive" ∨ r.sentiment = "negative" ∨
        r.sentiment = "neutral") ∧
       r.insights ≠ []) :=
  ⟨sampleOK_selEx, genEx_ok_ne_nil,
   C9_batch_shape true genEx selEx segsEx sampleOK_selEx genEx_ok_ne_nil⟩

/-! ## Claim C8 -/

/-- **C8 (counterexample).** A run in which the generator raises for the
topic `"Climate Change"` (one of six selected) over a
positive-sentiment transcript: the batch still has six records and the
failing topic's record carries the predefined fallback insights, but its
sentiment is `"positive"`, not `"neutral"` — the generator exception is
caught by the inner handler (`nlp_pipeline.py` lines 100-106), which
still computes the sentiment from the text; the `"neutral"` fallback
record of lines 127-131 belongs to the outer handler, which a generator
failure never reaches. -/
theorem C8_counterexample :
    genEx (fullText segsEx) "Climate Change" = Except.error "boom" ∧
    (extract_insights true genEx selEx segsEx).length = 6 ∧
    (extract_insights true genEx selEx segsEx).head? = some recA ∧
    recA.name = "Climate Change" ∧
    recA.insights = lookupInsights "Climate Change" ∧
    recA.sentiment = "positive" ∧
    recA.sentiment ≠ "neutral" :=
  ⟨rfl, rfl, rfl, rfl, rfl, rfl, by decide⟩

/-- **C8 (amended).** If the insight generator raises for one topic among
the six selected topics, `extract_insights` still returns six records;
the failing topic's record carries the predefined fallback insights for
that topic — a non-empty list — and its sentiment is the one computed
from the transcript text by the keyword analyzer (not necessarily
`"neutral"`).  One topic's failure never aborts or shrinks the batch. -/
theorem C8_generator_failure
    (gen : String → String → Except String (List String))
    (sel : List String) (segs : List Segment) (topic msg : String)
    (hsel : SampleOK sel) (htop : topic ∈ sel)
    (hfail : gen (fullText segs) topic = Except.error msg) :
    (extract_insights true gen sel segs).length = 6 ∧
    processTopic true (gen (fullText segs)) (fullText segs) topic
      ∈ extract_insights true gen sel segs ∧
    (processTopic true (gen (fullText segs)) (fullText segs) topic).name = topic ∧
    (processTopic true (gen (fullText segs)) (fullText segs) topic).insights
      = lookupInsights topic ∧
    lookupInsights topic ≠ [] ∧
    (processTopic true (gen (fullText segs)) (fullText segs) topic).sentiment
      = analyze_sentiment_simple (fullText segs) topic := by
  refine ⟨?_, ?_, processTopic_name _ _ _ _, ?_, lookupInsights_ne_nil topic,
    processTopic_sentiment _ _ _ _⟩
  · rw [extract_insights_length, hsel.1, topicKeys_length]
    decide
  · simp only [extract_insights]
    exact List.mem_map_of_mem _ htop
  · simp [processTopic, hfail]

/-- Witness for the amended C8 at the concrete example instance. -/
theorem C8_generator_failure_witness :
    SampleOK selEx ∧ "Climate Change" ∈ selEx ∧
    genEx (fullText segsEx) "Climate Change" = Except.error "boom" ∧
    (extract_insights true genEx selEx segsEx).length = 6 :=
  ⟨sampleOK_selEx, by decide, rfl,
   (C8_generator_failure genEx selEx segsEx "Climate Change" "boom"
     sampleOK_selEx (by decide) rfl).1⟩

/-! ## Claim C10 -/

/-- **C10.** `analyze_sentiment_simple` depends only on its text
argument, never on its topic argument, and consequently all sentiment
labels within one `extract_insights` batch are identical. -/
theorem C10_sentiment_topic_blind :
    (∀ text t1 t2,
      analyze_sentiment_simple text t1 = analyze_sentiment_simple text t2) ∧
    (∀ (openaiOn : Bool) (gen : String → String → Except String (List String))
      (sel : List String) (segs : List Segment) r1 r2,
      r1 ∈ extract_insights openaiOn gen sel segs →
      r2 ∈ extract_insights openaiOn gen sel segs →
      r1.sentiment = r2.sentiment) := by
  constructor
  · intro text t1 t2
    rfl
  · intro o gen sel segs r1 r2 h1 h2
    simp only [extract_insights] at h1 h2
    obtain ⟨a, _, rfl⟩ := List.mem_map.mp h1
    obtain ⟨b, _, rfl⟩ := List.mem_map.mp h2
    rw [processTopic_sentiment, processTopic_sentiment]
    rfl

/-- Witness for C10: two records of the example batch. -/
theorem C10_sentiment_topic_blind_witness :
    recA ∈ resEx ∧ recB ∈ resEx ∧ recA.sentiment = recB.sentiment :=
  ⟨by decide, by decide,
   C10_sentiment_topic_blind.2 true genEx selEx segsEx recA recB
     (by decide) (by decide)⟩

/-! ## `get_transcript` lemmas -/

/-- The initial clear-and-set-pending writes do not touch the transcript
cache key. -/
theorem applyOps_gtPre_transcript (σ : Store) :
    (applyOps σ gtPre).transcript = σ.transcript := rfl

/-- The initial clear-and-set-pending writes do not touch the insights
key. -/
theorem applyOps_gtPre_insights (σ : Store) :
    (applyOps σ gtPre).insights = σ.insights := rfl

/-- Cache hit: `get_transcript` returns the cached transcript after only
the clear/pending writes, consulting no provider. -/
theorem get_transcript_hit (fetch : FetchOutcome) (d : VideoDetails)
    (σ : Store) (td : TranscriptData) (h : σ.transcript = some td) :
    get_transcript fetch d σ = ⟨Except.ok td, applyOps σ gtPre, false, gtPre⟩ := by
  have h1 : (applyOps σ gtPre).transcript = some td := by
    rw [applyOps_gtPre_transcript]
    exact h
  unfold get_transcript
  rw [h1]

/-- Cache miss: `get_transcript` consults the provider and issues the
fetch-outcome writes. -/
theorem get_transcript_miss (fetch : FetchOutcome) (d : VideoDetails)
    (σ : Store) (h : σ.transcript = none) :
    get_transcript fetch d σ =
      ⟨gtResultOf fetch d, applyOps σ (gtPre ++ gtFetchOps fetch d), true,
       gtPre ++ gtFetchOps fetch d⟩ := by
  have h1 : (applyOps σ gtPre).transcript = none := by
    rw [applyOps_gtPre_transcript]
    exact h
  unfold get_transcript
  rw [h1]

/-- The mock transcript text always begins with a newline. -/
theorem get_mock_transcript_head (d : VideoDetails) :
    (get_mock_transcript d).data.head? = some '\n' := by
  unfold get_mock_transcript
  dsimp only
  split
  · exact rfl
  · exact rfl

/-- The mock transcript text is never empty. -/
theorem get_mock_transcript_ne_empty (d : VideoDetails) :
    get_mock_transcript d ≠ "" := by
  intro h
  have hh := get_mock_transcript_head d
  rw [h] at hh
  exact Option.noConfusion hh

/-! ## Claim C4 -/

/-- **C4.** With a populated transcript cache entry, two successive
`get_transcript` calls for the same identifier both return the cached
result unchanged and equal to each other, and neither consults a
transcript provider — whatever the provider outcomes and metadata would
have been. -/
theorem C4_warm_cache_idempotent (σ : Store) (td : TranscriptData)
    (fetch1 fetch2 : FetchOutcome) (d1 d2 : VideoDetails)
    (hcache : σ.transcript = some td) :
    (get_transcript fetch1 d1 σ).result = Except.ok td ∧
    (get_transcript fetch1 d1 σ).fetched = false ∧
    (get_transcript fetch2 d2 (get_transcript fetch1 d1 σ).store).result
      = Except.ok td ∧
    (get_transcript fetch2 d2 (get_transcript fetch1 d1 σ).store).fetched = false ∧
    (get_transcript fetch2 d2 (get_transcript fetch1 d1 σ).store).result
      = (get_transcript fetch1 d1 σ).result := by
  have h1 := get_transcript_hit fetch1 d1 σ td hcache
  have hstore : (get_transcript fetch1 d1 σ).store.transcript = some td := by
    rw [h1]
    rw [applyOps_gtPre_transcript]
    exact hcache
  have h2 := get_transcript_hit fetch2 d2 _ td hstore
  rw [h2, h1]
  exact ⟨rfl, rfl, rfl, rfl, rfl⟩

/-- Witness for C4: an empty store whose transcript key is populated. -/
theorem C4_warm_cache_idempotent_witness :
    ({ initStore with transcript := some (mockTd ⟨none, none⟩) } : Store).transcript
      = some (mockTd ⟨none, none⟩) ∧
    (get_transcript FetchOutcome.unavailable ⟨none, none⟩
      { initStore with transcript := some (mockTd ⟨none, none⟩) }).result
      = Except.ok (mockTd ⟨none, none⟩) :=
  ⟨rfl,
   (C4_warm_cache_idempotent _ _ FetchOutcome.unavailable FetchOutcome.unavailable
     ⟨none, none⟩ ⟨none, none⟩ rfl).1⟩

/-! ## Claim C3 -/

/-- **C3.** When the cache is cold and the primary provider yields no
captions (`None` or an empty segment list), `get_transcript` returns the
mock fallback: source tag `"mock_data"` (the spec's `synthetic`), exactly
one segment with non-empty text; and it caches this result under the
transcript key with TTL 86400, exactly as it caches a primary success. -/
theorem C3_synthetic_fallback (σ : Store) (fetch : FetchOutcome)
    (d : VideoDetails) (hmiss : σ.transcript = none)
    (hnone : fetch = FetchOutcome.unavailable ∨ fetch = FetchOutcome.ok []) :
    (get_transcript fetch d σ).result = Except.ok (mockTd d) ∧
    (mockTd d).source = "mock_data" ∧
    (mockTd d).segments.length = 1 ∧
    (∀ s ∈ (mockTd d).segments, s.text ≠ "") ∧
    (get_transcript fetch d σ).store.transcript = some (mockTd d) ∧
    ROp.setTranscript (mockTd d) 86400 ∈ (get_transcript fetch d σ).ops ∧
    (∀ segs, segs ≠ ([] : List Segment) →
      ROp.setTranscript ⟨"youtube_api", segs⟩ 86400
        ∈ (get_transcript (FetchOutcome.ok segs) d σ).ops) := by
  have hres : gtResultOf fetch d = Except.ok (mockTd d) := by
    rcases hnone with rfl | rfl
    · rfl
    · rfl
  have hops : gtFetchOps fetch d = [ROp.setTranscript (mockTd d) 86400] := by
    rcases hnone with rfl | rfl
    · rfl
    · rfl
  rw [get_transcript_miss fetch d σ hmiss]
  refine ⟨hres, rfl, rfl, ?_, ?_, ?_, ?_⟩
  · intro s hs
    rw [mockTd] at hs
    simp only [List.mem_singleton] at hs
    subst hs
    exact get_mock_transcript_ne_empty d
  · rw [hops]
    rfl
  · rw [hops]
    simp [gtPre]
  · intro segs hsegs
    rw [get_transcript_miss _ d σ hmiss]
    have : gtFetchOps (FetchOutcome.ok segs) d
        = [ROp.setTranscript ⟨"youtube_api", segs⟩ 86400] := by
      rw [gtFetchOps]
      rw [if_neg hsegs]
    rw [this]
    simp [gtPre]

/-- Witness for C3: cold empty store, provider returns `None`. -/
theorem C3_synthetic_fallback_witness :
    initStore.transcript = none ∧
    (FetchOutcome.unavailable = FetchOutcome.unavailable ∨
      FetchOutcome.unavailable = FetchOutcome.ok []) ∧
    (get_transcript FetchOutcome.unavailable ⟨none, none⟩ initStore).result
      = Except.ok (mockTd ⟨none, none⟩) :=
  ⟨rfl, Or.inl rfl,
   (C3_synthetic_fallback initStore FetchOutcome.unavailable ⟨none, none⟩
     rfl (Or.inl rfl)).1⟩

/-! ## Flow-shape lemmas for the job state machine -/

/-- Unfolding of the background task's writes when the transcript step
returns a value. -/
theorem taskOps_eq_ok (p : TaskParams) (td : TranscriptData)
    (h : taskTranscript p = Except.ok td) :
    taskOps p =
      ([ROp.delStatus, ROp.delError, ROp.setStatus "processing" 3600] ++
        gtOps p.cacheHit p.fetch p.details) ++
      [ROp.setInsights (extract_insights p.openaiOn p.gen p.sel td.segments) 86400,
       ROp.setStatus "completed" 3600] := by
  unfold taskOps
  rw [h, List.append_assoc]

/-- Unfolding of the background task's writes when the transcript step
raises. -/
theorem taskOps_eq_err (p : TaskParams) (m : String)
    (h : taskTranscript p = Except.error m) :
    taskOps p =
      ([ROp.delStatus, ROp.delError, ROp.setStatus "processing" 3600] ++
        gtOps p.cacheHit p.fetch p.details) ++
      [ROp.setError m 3600, ROp.setStatus "error" 3600] := by
  unfold taskOps
  rw [h, List.append_assoc]

/-- Every write of a `get_transcript` call is neutral: it neither writes
insights nor a `completed` status. -/
theorem gtOps_neutral (ch : Bool) (f : FetchOutcome) (d : VideoDetails) :
    ∀ op ∈ gtOps ch f d, neutralOp op = true := by
  intro op h
  rw [gtOps] at h
  rcases List.mem_append.mp h with h | h
  · have hop : op = ROp.delError ∨ op = ROp.delStatus ∨
        op = ROp.setStatus "pending" 3600 := by
      simpa [gtPre] using h
    rcases hop with rfl | rfl | rfl <;> rfl
  · by_cases hch : ch = true
    · rw [if_pos hch] at h
      exact absurd h (List.not_mem_nil op)
    · rw [if_neg hch] at h
      cases f with
      | ok segs =>
        rw [gtFetchOps] at h
        by_cases hs : segs = []
        · rw [if_pos hs] at h
          have hop : op = ROp.setTranscript (mockTd d) 86400 := by simpa using h
          rw [hop]
          rfl
        · rw [if_neg hs] at h
          have hop : op = ROp.setTranscript ⟨"youtube_api", segs⟩ 86400 := by
            simpa using h
          rw [hop]
          rfl
      | unavailable =>
        have hop : op = ROp.setTranscript (mockTd d) 86400 := by
          simpa [gtFetchOps] using h
        rw [hop]
        rfl
      | err m =>
        have hop : op = ROp.setError m 3600 ∨ op = ROp.setStatus "error" 3600 := by
          simpa [gtFetchOps] using h
        rcases hop with rfl | rfl <;> rfl

/-- Skipping neutral operations does not change `selfCovered`. -/
theorem selfCovered_append_neutral (l1 l2 : List ROp)
    (h : ∀ op ∈ l1, neutralOp op = true) :
    selfCovered (l1 ++ l2) = selfCovered l2 := by
  induction l1 with
  | nil => rfl
  | cons a l ih =>
    have ha := h a (List.mem_cons_self _ _)
    have hl : ∀ op ∈ l, neutralOp op = true :=
      fun op hop => h op (List.mem_cons_of_mem _ hop)
    cases a with
    | setInsights payload ttl => exact absurd ha (by simp [neutralOp])
    | setStatus v ttl =>
      have hv : v ≠ "completed" := by
        simpa [neutralOp] using ha
      simp only [List.cons_append, selfCovered, if_neg hv]
      exact ih hl
    | delStatus =>
      simp only [List.cons_append, selfCovered]
      exact ih hl
    | delError =>
      simp only [List.cons_append, selfCovered]
      exact ih hl
    | setError v ttl =>
      simp only [List.cons_append, selfCovered]
      exact ih hl
    | setTranscript td ttl =>
      simp only [List.cons_append, selfCovered]
      exact ih hl

/-- Neutral operation lists are self-covered. -/
theorem selfCovered_of_neutral (l : List ROp)
    (h : ∀ op ∈ l, neutralOp op = true) : selfCovered l = true := by
  have := selfCovered_append_neutral l [] h
  rw [List.append_nil] at this
  rw [this]
  rfl

/-- The first three task writes are neutral. -/
theorem taskPrefix_neutral :
    ∀ op ∈ [ROp.delStatus, ROp.delError, ROp.setStatus "processing" 3600],
      neutralOp op = true := by decide

/-- Under an admissible sample, `extract_insights` never returns an empty
batch. -/
theorem extract_insights_ne_nil (openaiOn : Bool)
    (gen : String → String → Except String (List String))
    (sel : List String) (segs : List Segment) (hsel : SampleOK sel) :
    extract_insights openaiOn gen sel segs ≠ [] := by
  intro h
  have hlen := extract_insights_length openaiOn gen sel segs
  rw [h, hsel.1, topicKeys_length] at hlen
  exact absurd hlen.symm (by decide)

/-- Every flow of the program is self-covered: it never writes
`status=completed` before its insights write. -/
theorem selfCovered_validFlow (t : List ROp) (h : ValidFlow t) :
    selfCovered t = true := by
  rcases h with rfl | ⟨p, hsel, rfl⟩ | ⟨ch, f, d, rfl⟩
  · decide
  · cases htt : taskTranscript p with
    | ok td =>
      rw [taskOps_eq_ok p td htt, List.append_assoc,
        selfCovered_append_neutral _ _ taskPrefix_neutral,
        selfCovered_append_neutral _ _ (gtOps_neutral _ _ _)]
      rfl
    | error m =>
      rw [taskOps_eq_err p m htt, List.append_assoc,
        selfCovered_append_neutral _ _ taskPrefix_neutral,
        selfCovered_append_neutral _ _ (gtOps_neutral _ _ _)]
      rfl
  · apply selfCovered_of_neutral
    intro op hop
    rw [syncOps] at hop
    rcases List.mem_append.mp hop with h | h
    · have hop2 : op = ROp.delStatus ∨ op = ROp.delError := by simpa using h
      rcases hop2 with rfl | rfl <;> rfl
    · exact gtOps_neutral ch f d op h

/-- No `get_transcript` write is an insights write. -/
theorem gtOps_no_insights (ch : Bool) (f : FetchOutcome) (d : VideoDetails) :
    ∀ l ttl, ROp.setInsights l ttl ∉ gtOps ch f d := by
  intro l ttl h
  have := gtOps_neutral ch f d _ h
  simp [neutralOp] at this

/-- Every flow only writes non-empty insights payloads. -/
theorem goodInsWrites_validFlow (t : List ROp) (h : ValidFlow t) :
    goodInsWrites t := by
  rcases h with rfl | ⟨p, hsel, rfl⟩ | ⟨ch, f, d, rfl⟩
  · intro l ttl hmem
    simp [submitOps] at hmem
  · intro l ttl hmem
    cases htt : taskTranscript p with
    | ok td =>
      rw [taskOps_eq_ok p td htt] at hmem
      rcases List.mem_append.mp hmem with hmem | hmem
      · rcases List.mem_append.mp hmem with hmem | hmem
        · simp at hmem
        · exact absurd hmem (gtOps_no_insights _ _ _ l ttl)
      · have hl : l = extract_insights p.openaiOn p.gen p.sel td.segments ∧
            ttl = 86400 := by
          simpa using hmem
        rw [hl.1]
        exact extract_insights_ne_nil _ _ _ _ hsel
    | error m =>
      rw [taskOps_eq_err p m htt] at hmem
      rcases List.mem_append.mp hmem with hmem | hmem
      · rcases List.mem_append.mp hmem with hmem | hmem
        · simp at hmem
        · exact absurd hmem (gtOps_no_insights _ _ _ l ttl)
      · simp at hmem
  · intro l ttl hmem
    rw [syncOps] at hmem
    rcases List.mem_append.mp hmem with hmem | hmem
    · simp at hmem
    · exact absurd hmem (gtOps_no_insights _ _ _ l ttl)

/-! ## The completed-implies-insights invariant -/

/-- Applying any operation whose insights payloads are non-empty
preserves `insOK`. -/
theorem insOK_applyOp (σ : Store) (op : ROp)
    (hop : ∀ l ttl, op = ROp.setInsights l ttl → l ≠ [])
    (h : insOK σ) : insOK (applyOp σ op) := by
  cases op with
  | setInsights l ttl => exact ⟨l, rfl, hop l ttl rfl⟩
  | delStatus => exact h
  | delError => exact h
  | setStatus v ttl => exact h
  | setError v ttl => exact h
  | setTranscript td ttl => exact h

/-- The invariant holds initially. -/
theorem Inv_init : Inv initSys := by
  constructor
  · intro h
    exact absurd h (by decide)
  · intro t ht
    exact absurd ht (List.not_mem_nil t)

/-- One system step preserves the invariant. -/
theorem Inv_step (s1 s2 : Sys) (hst : SysStep s1 s2) (hinv : Inv s1) :
    Inv s2 := by
  cases hst with
  | spawn s t hvalid =>
    refine ⟨hinv.1, ?_⟩
    intro t' ht'
    rcases List.mem_cons.mp ht' with rfl | ht'
    · exact ⟨goodInsWrites_validFlow t' hvalid,
        Or.inl (selfCovered_validFlow t' hvalid)⟩
    · exact hinv.2 t' ht'
  | exec σ l1 op rest l2 =>
    have hmem : (op :: rest) ∈ l1 ++ (op :: rest) :: l2 :=
      List.mem_append.mpr (Or.inr (List.mem_cons_self _ _))
    obtain ⟨hgood, hcov⟩ := hinv.2 (op :: rest) hmem
    have hophead : ∀ l ttl, op = ROp.setInsights l ttl → l ≠ [] :=
      fun l ttl he => hgood l ttl (he ▸ List.mem_cons_self _ _)
    have hkeep : insOK σ → insOK (applyOp σ op) :=
      insOK_applyOp σ op hophead
    constructor
    · -- the store part of the invariant
      intro hc
      cases op with
      | delStatus => exact absurd hc (by simp [applyOp])
      | delError => exact hkeep (hinv.1 hc)
      | setError v ttl => exact hkeep (hinv.1 hc)
      | setTranscript td ttl => exact hkeep (hinv.1 hc)
      | setInsights l ttl =>
        exact ⟨l, rfl, hgood l ttl (List.mem_cons_self _ _)⟩
      | setStatus v ttl =>
        have hv : v = "completed" := by
          simpa [applyOp] using hc
        subst hv
        rcases hcov with hcov | hcov
        · simp [selfCovered] at hcov
        · exact hkeep hcov
    · -- the per-thread part of the invariant
      intro t' ht'
      have hold : t' ∈ l1 ++ (op :: rest) :: l2 ∨ t' = rest := by
        rcases List.mem_append.mp ht' with h | h
        · exact Or.inl (List.mem_append.mpr (Or.inl h))
        · rcases List.mem_cons.mp h with rfl | h
          · exact Or.inr rfl
          · exact Or.inl (List.mem_append.mpr (Or.inr (List.mem_cons_of_mem _ h)))
      rcases hold with hold | rfl
      · obtain ⟨hg, hc⟩ := hinv.2 t' hold
        exact ⟨hg, hc.imp id hkeep⟩
      · refine ⟨fun l ttl hm => hgood l ttl (List.mem_cons_of_mem _ hm), ?_⟩
        rcases hcov with hcov | hcov
        · cases op with
          | setInsights l ttl =>
            exact Or.inr ⟨l, rfl, hgood l ttl (List.mem_cons_self _ _)⟩
          | setStatus v ttl =>
            rw [selfCovered] at hcov
            by_cases hv : v = "completed"
            · rw [if_pos hv] at hcov
              exact absurd hcov (by simp)
            · rw [if_neg hv] at hcov
              exact Or.inl hcov
          | delStatus => exact Or.inl hcov
          | delError => exact Or.inl hcov
          | setError v ttl => exact Or.inl hcov
          | setTranscript td ttl => exact Or.inl hcov
        · exact Or.inr (hkeep hcov)
  | expireStatus s =>
    refine ⟨?_, ?_⟩
    · intro hc
      exact absurd hc (by simp)
    · intro t' ht'
      obtain ⟨hg, hc⟩ := hinv.2 t' ht'
      exact ⟨hg, hc.imp id id⟩
  | expireError s =>
    refine ⟨?_, ?_⟩
    · intro hc
      exact hinv.1 hc
    · intro t' ht'
      obtain ⟨hg, hc⟩ := hinv.2 t' ht'
      exact ⟨hg, hc.imp id id⟩

/-- The invariant holds in every reachable configuration. -/
theorem Inv_reachable (s : Sys) (h : Reachable s) : Inv s := by
  induction h with
  | refl => exact Inv_init
  | tail hsteps hstep ih => exact Inv_step _ _ hstep ih

/-! ## Claim C1 -/

/-- **C1.** In every reachable configuration of the service, whenever the
status key holds `"completed"`, the insights key holds a non-empty
insight list, and the poller endpoint returns it; moreover in the
background task's write sequence the insights write (TTL 86400) sits
immediately before the `status=completed` write (TTL 3600), with a
non-empty payload. -/
theorem C1_completed_implies_insights :
    (∀ s : Sys, Reachable s → s.store.status = some "completed" →
      ∃ l, s.store.insights = some l ∧ l ≠ [] ∧
        get_video_insights s.store = Except.ok l) ∧
    (∀ (p : TaskParams) (td : TranscriptData), SampleOK p.sel →
      taskTranscript p = Except.ok td →
      ∃ pre, taskOps p = pre ++
          [ROp.setInsights (extract_insights p.openaiOn p.gen p.sel td.segments) 86400,
           ROp.setStatus "completed" 3600] ∧
        extract_insights p.openaiOn p.gen p.sel td.segments ≠ []) := by
  constructor
  · intro s hreach hc
    obtain ⟨l, hl, hne⟩ := (Inv_reachable s hreach).1 hc
    refine ⟨l, hl, hne, ?_⟩
    rw [get_video_insights, hc, hl]
    simp
  · intro p td hsel htt
    exact ⟨_, taskOps_eq_ok p td htt,
      extract_insights_ne_nil _ _ _ _ hsel⟩

/-- `taskOps p0` executed from the empty store ends with
`status=completed`. -/
theorem sysEx_status : sysEx.store.status = some "completed" := by
  have h : taskTranscript p0 = Except.ok (mockTd ⟨none, none⟩) := rfl
  show (applyOps initStore (taskOps p0)).status = some "completed"
  rw [taskOps_eq_ok p0 (mockTd ⟨none, none⟩) h]
  rfl

/-- `ValidFlow` holds of the concrete example task. -/
theorem validFlow_p0 : ValidFlow (taskOps p0) :=
  Or.inr (Or.inl ⟨p0, sampleOK_selEx, rfl⟩)

/-- Running every write of the front thread to completion is a reachable
sequence of steps. -/
theorem reach_exec_all (ops : List ROp) : ∀ (σ : Store) (ts : List (List ROp)),
    Relation.ReflTransGen SysStep ⟨σ, ops :: ts⟩ ⟨applyOps σ ops, [] :: ts⟩ := by
  induction ops with
  | nil =>
    intro σ ts
    exact Relation.ReflTransGen.refl
  | cons op rest ih =>
    intro σ ts
    exact Relation.ReflTransGen.head (SysStep.exec σ [] op rest ts)
      (ih (applyOp σ op) ts)

/-- The example configuration is reachable: spawn the background task,
then execute all of its writes. -/
theorem reach_sysEx : Reachable sysEx :=
  Relation.ReflTransGen.head (SysStep.spawn initSys (taskOps p0) validFlow_p0)
    (reach_exec_all (taskOps p0) initStore [])

/-- Witness for C1 at the concrete completed run. -/
theorem C1_completed_implies_insights_witness :
    Reachable sysEx ∧ sysEx.store.status = some "completed" ∧
    (∃ l, sysEx.store.insights = some l ∧ l ≠ [] ∧
      get_video_insights sysEx.store = Except.ok l) ∧
    SampleOK p0.sel ∧ taskTranscript p0 = Except.ok (mockTd ⟨none, none⟩) ∧
    (∃ pre, taskOps p0 = pre ++
        [ROp.setInsights (extract_insights p0.openaiOn p0.gen p0.sel
            (mockTd ⟨none, none⟩).segments) 86400,
         ROp.setStatus "completed" 3600] ∧
      extract_insights p0.openaiOn p0.gen p0.sel
        (mockTd ⟨none, none⟩).segments ≠ []) :=
  ⟨reach_sysEx, sysEx_status,
   C1_completed_implies_insights.1 sysEx reach_sysEx sysEx_status,
   sampleOK_selEx, rfl,
   C1_completed_implies_insights.2 p0 (mockTd ⟨none, none⟩) sampleOK_selEx rfl⟩

/-! ## Claim C2 -/

/-- **C2 (counterexample).** Within one background-task run — no new
submission anywhere — the store's status is `"processing"` after the
first three writes and back to `"pending"` after six: `process_video`
sets `processing` (`main.py` line 175) and the `get_transcript` call it
makes immediately resets the status key to `pending`
(`youtube_client.py` lines 253-259).  So the status does move back from
`processing` to `pending` without a new submission, contradicting the
claimed forward-only transition order. -/
theorem C2_counterexample :
    ValidFlow (taskOps p0) ∧
    (applyOps initStore ((taskOps p0).take 3)).status = some "processing" ∧
    (applyOps initStore ((taskOps p0).take 6)).status = some "pending" ∧
    statusWrites (taskOps p0) = ["processing", "pending", "completed"] :=
  ⟨validFlow_p0, rfl, rfl, rfl⟩

/-- `statusWrites` distributes over concatenation. -/
theorem statusWrites_append (a b : List ROp) :
    statusWrites (a ++ b) = statusWrites a ++ statusWrites b := by
  simp [statusWrites]

/-- A `get_transcript` call writes `pending`, and additionally `error`
exactly when an exception escapes it on a cache miss. -/
theorem statusWrites_gtOps (ch : Bool) (f : FetchOutcome) (d : VideoDetails) :
    statusWrites (gtOps ch f d) = ["pending"] ∨
    statusWrites (gtOps ch f d) = ["pending", "error"] := by
  rw [gtOps, statusWrites_append]
  by_cases hch : ch = true
  · rw [if_pos hch]
    exact Or.inl rfl
  · rw [if_neg hch]
    cases f with
    | ok segs =>
      rw [gtFetchOps]
      by_cases hs : segs = []
      · rw [if_pos hs]
        exact Or.inl rfl
      · rw [if_neg hs]
        exact Or.inl rfl
    | unavailable => exact Or.inl rfl
    | err m => exact Or.inr rfl

/-- **C2 (amended).** Per-identifier status writes follow a fixed order,
but with one backward move inside every background run: the submit
endpoint writes `pending`; a background-task run writes `processing`,
then `pending` (the transcript step's reset), then either `completed` or
`error` twice; the synchronous endpoint writes `pending` and, on a
transcript failure, `error`.  Apart from the in-run
`processing → pending` reset, no status moves backward except via a new
submission or new run, which starts by clearing state. -/
theorem C2_status_transitions :
    statusWrites submitOps = ["pending"] ∧
    (∀ p : TaskParams,
      statusWrites (taskOps p) = ["processing", "pending", "completed"] ∨
      statusWrites (taskOps p)
        = ["processing", "pending", "error", "error"]) ∧
    (∀ (ch : Bool) (f : FetchOutcome) (d : VideoDetails),
      statusWrites (syncOps ch f d) = ["pending"] ∨
      statusWrites (syncOps ch f d) = ["pending", "error"]) := by
  refine ⟨rfl, ?_, ?_⟩
  · intro p
    cases htt : taskTranscript p with
    | ok td =>
      left
      rw [taskOps_eq_ok p td htt, statusWrites_append, statusWrites_append]
      have hgt : statusWrites (gtOps p.cacheHit p.fetch p.details)
          = ["pending"] := by
        rw [gtOps, statusWrites_append]
        by_cases hch : p.cacheHit = true
        · rw [if_pos hch]
          rfl
        · rw [if_neg hch]
          cases hf : p.fetch with
          | ok segs =>
            rw [gtFetchOps]
            by_cases hs : segs = []
            · rw [if_pos hs]
              rfl
            · rw [if_neg hs]
              rfl
          | unavailable => rfl
          | err m =>
            exfalso
            rw [taskTranscript, if_neg hch, hf] at htt
            simp [gtResultOf] at htt
      rw [hgt]
      rfl
    | error m =>
      right
      rw [taskOps_eq_err p m htt, statusWrites_append, statusWrites_append]
      have hch : ¬p.cacheHit = true := by
        intro hch
        rw [taskTranscript, if_pos hch] at htt
        exact Except.noConfusion htt
      have hgt : statusWrites (gtOps p.cacheHit p.fetch p.details)
          = ["pending", "error"] := by
        rw [gtOps, statusWrites_append, if_neg hch]
        cases hf : p.fetch with
        | ok segs =>
          exfalso
          rw [taskTranscript, if_neg hch, hf] at htt
          by_cases hs : segs = []
          · simp [gtResultOf, hs] at htt
          · simp [gtResultOf, hs] at htt
        | unavailable =>
          exfalso
          rw [taskTranscript, if_neg hch, hf] at htt
          simp [gtResultOf] at htt
        | err m2 => rfl
      rw [hgt]
      rfl
  · intro ch f d
    rw [syncOps, statusWrites_append]
    rcases statusWrites_gtOps ch f d with h | h
    · left
      rw [h]
      rfl
    · right
      rw [h]
      rfl

/-! ## Claim C7 -/

/-- **C7 (code bug).** Evaluation of `fallback_whisper` at its branches:
when yt-dlp is unavailable (line 173), or the OpenAI prerequisites are
missing (line 177), the source returns `get_mock_transcript(video_id)`
directly — a bare string, not the single-segment list promised by the
function's own `List[Dict[str, Any]]` annotation and docstring.  Only
the success path (lines 217-224) and the exception path (lines 230-235)
wrap the text as one segment with start 0.0 and duration 0.0. -/
theorem C7_whisper_prereq_bug :
    fallback_whisper false true "key" (Except.ok "text") ⟨none, none⟩
      = WhisperReturn.raw (get_mock_transcript ⟨none, none⟩) ∧
    (∀ l, WhisperReturn.raw (get_mock_transcript ⟨none, none⟩)
      ≠ WhisperReturn.segs l) ∧
    fallback_whisper true false "" (Except.ok "text") ⟨none, none⟩
      = WhisperReturn.raw (get_mock_transcript ⟨none, none⟩) ∧
    (∀ text : String, fallback_whisper true true "key" (Except.ok text) ⟨none, none⟩
      = WhisperReturn.segs [⟨text, 0, 0⟩]) ∧
    (∀ (m : String) (d : VideoDetails),
      fallback_whisper true true "key" (Except.error m) d
        = WhisperReturn.segs [⟨get_mock_transcript d, 0, 0⟩]) :=
  ⟨rfl, fun l h => WhisperReturn.noConfusion h, rfl,
   fun text => rfl, fun m d => rfl⟩

/-! ## List infrastructure for the URL-parsing proofs -/

/-- A split found in the left part of an append stays put. -/
theorem splitFirst_append_some (sep : Char) (l1 l2 a b : List Char)
    (h : splitFirst sep l1 = some (a, b)) :
    splitFirst sep (l1 ++ l2) = some (a, b ++ l2) := by
  induction l1 generalizing a with
  | nil => exact absurd h (by simp [splitFirst])
  | cons c rest ih =>
    rw [List.cons_append]
    rw [splitFirst] at h ⊢
    by_cases hc : c = sep
    · rw [if_pos hc] at h ⊢
      cases h
      rfl
    · rw [if_neg hc] at h ⊢
      cases hs : splitFirst sep rest with
      | none => rw [hs] at h; exact Option.noConfusion h
      | some p =>
        obtain ⟨pa, pb⟩ := p
        rw [hs] at h
        cases h
        rw [ih pa hs]

/-- No occurrence of the separator means no split. -/
theorem splitFirst_none (sep : Char) (l : List Char)
    (h : ∀ c ∈ l, c ≠ sep) : splitFirst sep l = none := by
  induction l with
  | nil => rfl
  | cons c rest ih =>
    rw [splitFirst, if_neg (h c (List.mem_cons_self _ _)),
      ih fun x hx => h x (List.mem_cons_of_mem _ hx)]

/-- Splitting at the first separator occurrence across an append
boundary. -/
theorem splitFirst_append_sep (sep : Char) (l1 l2 : List Char)
    (h : ∀ c ∈ l1, c ≠ sep) :
    splitFirst sep (l1 ++ sep :: l2) = some (l1, l2) := by
  induction l1 with
  | nil => simp [splitFirst]
  | cons c rest ih =>
    rw [List.cons_append, splitFirst, if_neg (h c (List.mem_cons_self _ _)),
      ih fun x hx => h x (List.mem_cons_of_mem _ hx)]

/-- `takeWhile` keeps a list all of whose elements satisfy the
predicate. -/
theorem takeWhile_all (p : Char → Bool) (l : List Char)
    (h : ∀ c ∈ l, p c = true) : l.takeWhile p = l := by
  induction l with
  | nil => rfl
  | cons c rest ih =>
    rw [List.takeWhile_cons_of_pos (h c (List.mem_cons_self _ _)),
      ih fun x hx => h x (List.mem_cons_of_mem _ hx)]

/-- `dropWhile` drops a list all of whose elements satisfy the
predicate. -/
theorem dropWhile_all (p : Char → Bool) (l : List Char)
    (h : ∀ c ∈ l, p c = true) : l.dropWhile p = [] := by
  induction l with
  | nil => rfl
  | cons c rest ih =>
    rw [List.dropWhile_cons_of_pos (h c (List.mem_cons_self _ _)),
      ih fun x hx => h x (List.mem_cons_of_mem _ hx)]

/-- `takeWhile` across an append stops exactly at the first failing
element. -/
theorem takeWhile_append_stop (p : Char → Bool) (l1 : List Char) (x : Char)
    (l2 : List Char) (h1 : ∀ c ∈ l1, p c = true) (hx : p x = false) :
    (l1 ++ x :: l2).takeWhile p = l1 := by
  have hx2 : ¬p x = true := by
    rw [hx]
    exact Bool.false_ne_true
  induction l1 with
  | nil => simpa using List.takeWhile_cons_of_neg (l := l2) hx2
  | cons c rest ih =>
    rw [List.cons_append,
      List.takeWhile_cons_of_pos (h1 c (List.mem_cons_self _ _)),
      ih fun y hy => h1 y (List.mem_cons_of_mem _ hy)]

/-- `dropWhile` across an append stops exactly at the first failing
element. -/
theorem dropWhile_append_stop (p : Char → Bool) (l1 : List Char) (x : Char)
    (l2 : List Char) (h1 : ∀ c ∈ l1, p c = true) (hx : p x = false) :
    (l1 ++ x :: l2).dropWhile p = x :: l2 := by
  have hx2 : ¬p x = true := by
    rw [hx]
    exact Bool.false_ne_true
  induction l1 with
  | nil => simpa using List.dropWhile_cons_of_neg (l := l2) hx2
  | cons c rest ih =>
    rw [List.cons_append,
      List.dropWhile_cons_of_pos (h1 c (List.mem_cons_self _ _)),
      ih fun y hy => h1 y (List.mem_cons_of_mem _ hy)]

/-- A list without the sought character does not contain it. -/
theorem contains_eq_false (c : Char) (l : List Char)
    (h : ∀ x ∈ l, x ≠ c) : l.contains c = false := by
  induction l with
  | nil => rfl
  | cons x xs ih =>
    have hx : (c == x) = false := by
      rw [beq_eq_false_iff_ne]
      exact fun he => h x (List.mem_cons_self _ _) he.symm
    have ihx := ih fun y hy => h y (List.mem_cons_of_mem _ hy)
    simp only [List.contains, List.elem] at ihx ⊢
    rw [hx, ihx]

/-- Every list is a Boolean prefix of itself followed by anything. -/
theorem isPrefixOf_append_self (l t : List Char) :
    l.isPrefixOf (l ++ t) = true := by
  induction l with
  | nil => cases t <;> rfl
  | cons c rest ih =>
    rw [List.cons_append]
    simp only [List.isPrefixOf]
    rw [beq_self_eq_true]
    simpa using ih

/-- A pattern containing a non-benign character is never a prefix of an
all-benign region. -/
theorem isPrefixOf_benign_false (lit l : List Char)
    (hlit : ∃ d ∈ lit, benignChar d = false)
    (hl : ∀ c ∈ l, benignChar c = true) : lit.isPrefixOf l = false := by
  cases hpre : lit.isPrefixOf l with
  | false => rfl
  | true =>
    exfalso
    obtain ⟨d, hd, hdb⟩ := hlit
    have hsub : lit <+: l := by
      rw [← List.isPrefixOf_iff_prefix]
      exact hpre
    have := hl d (hsub.subset hd)
    rw [this] at hdb
    exact Bool.noConfusion hdb

/-- No pattern alternative matches at a position inside an all-benign
region. -/
theorem reTry_none_benign (lits : List (List Char)) (l : List Char)
    (hl : ∀ c ∈ l, benignChar c = true)
    (hlits : ∀ lit ∈ lits, ∃ d ∈ lit, benignChar d = false) :
    reTry lits l = none := by
  rw [reTry]
  rw [List.findSome?_eq_none]
  intro lit hlit
  rw [isPrefixOf_benign_false lit l (hlits lit hlit) hl]
  rfl

/-- The regex scan finds nothing inside an all-benign region. -/
theorem reFind_none_benign (lits : List (List Char)) (l : List Char)
    (hl : ∀ c ∈ l, benignChar c = true)
    (hlits : ∀ lit ∈ lits, ∃ d ∈ lit, benignChar d = false) :
    reFind lits l = none := by
  induction l with
  | nil => rfl
  | cons c cs ih =>
    rw [reFind, reTry_none_benign lits (c :: cs) hl hlits]
    exact ih fun x hx => hl x (List.mem_cons_of_mem _ hx)

/-- Word characters are benign. -/
theorem benign_of_word (c : Char) (h : wordChar c = true) :
    benignChar c = true := by
  rw [benignChar, h]
  rfl

/-- A word character is never a given non-word character. -/
theorem wordChar_ne (c d : Char) (h : wordChar c = true)
    (hd : wordChar d = false) : c ≠ d := by
  intro he
  rw [he, hd] at h
  exact Bool.noConfusion h

/-- `splitAllAux` on a separator-free chunk yields one piece. -/
theorem splitAllAux_no_sep (sep : Char) (l acc : List Char)
    (h : ∀ c ∈ l, c ≠ sep) :
    splitAllAux sep l acc = [acc.reverse ++ l] := by
  induction l generalizing acc with
  | nil => simp [splitAllAux]
  | cons c rest ih =>
    rw [splitAllAux, if_neg (h c (List.mem_cons_self _ _)),
      ih (c :: acc) fun x hx => h x (List.mem_cons_of_mem _ hx)]
    simp

/-- `splitAllAux` across the first separator occurrence. -/
theorem splitAllAux_sep_boundary (sep : Char) (l1 l2 acc : List Char)
    (h : ∀ c ∈ l1, c ≠ sep) :
    splitAllAux sep (l1 ++ sep :: l2) acc
      = (acc.reverse ++ l1) :: splitAllAux sep l2 [] := by
  induction l1 generalizing acc with
  | nil => simp [splitAllAux]
  | cons c rest ih =>
    rw [List.cons_append, splitAllAux, if_neg (h c (List.mem_cons_self _ _)),
      ih (c :: acc) fun x hx => h x (List.mem_cons_of_mem _ hx)]
    simp

/-- `unquoteAux` is the identity on word-only input. -/
theorem unquoteAux_word (l : List Char) (h : ∀ c ∈ l, wordChar c = true) :
    unquoteAux l 0 = l := by
  induction l with
  | nil => rfl
  | cons c rest ih =>
    have hc := h c (List.mem_cons_self _ _)
    have hrest := ih fun x hx => h x (List.mem_cons_of_mem _ hx)
    have hx1 : ¬(c = '+') := wordChar_ne c '+' hc (by decide)
    have hx2 : ¬(c = '%') := wordChar_ne c '%' hc (by decide)
    rcases rest with _ | ⟨h1, _ | ⟨h2, t⟩⟩
    · rw [show unquoteAux [c] 0
          = if c = '+' then ' ' :: unquoteAux [] 0
            else if c = '%' then '%' :: unquoteAux [] 0
            else c :: unquoteAux [] 0 from rfl,
        if_neg hx1, if_neg hx2, hrest]
    · rw [show unquoteAux [c, h1] 0
          = if c = '+' then ' ' :: unquoteAux [h1] 0
            else if c = '%' then '%' :: unquoteAux [h1] 0
            else c :: unquoteAux [h1] 0 from rfl,
        if_neg hx1, if_neg hx2, hrest]
    · rw [show unquoteAux (c :: h1 :: h2 :: t) 0
          = if c = '+' then ' ' :: unquoteAux (h1 :: h2 :: t) 0
            else if c = '%' then
              (match hexVal h1, hexVal h2 with
               | some a, some b => Char.ofNat (16 * a + b) :: unquoteAux (h1 :: h2 :: t) 2
               | _, _ => '%' :: unquoteAux (h1 :: h2 :: t) 0)
            else c :: unquoteAux (h1 :: h2 :: t) 0 from rfl,
        if_neg hx1, if_neg hx2, hrest]

/-- `unquote_plus` is the identity on word-only input. -/
theorem unquotePlus_word (l : List Char) (h : ∀ c ∈ l, wordChar c = true) :
    unquotePlus l = l := unquoteAux_word l h

/-- Rebuilding a string from its character data is the identity. -/
theorem str_mk_data (s : String) : String.mk s.data = s := rfl

/-! ## `urlparse` on the standard URL shapes -/

/-- `urlparse` on `https://HOST/P` URLs without query, fragment or
parameters. -/
theorem urlparseChars_https (host p : List Char)
    (hhost : ∀ c ∈ host, netChar c = true)
    (hbr1 : host.contains '[' = false) (hbr2 : host.contains ']' = false)
    (hp : ∀ c ∈ p, c ≠ '#' ∧ c ≠ '?' ∧ c ≠ ';') :
    urlparseChars ("https://".data ++ (host ++ '/' :: p))
      = Except.ok ⟨"https".data, host, '/' :: p, [], [], []⟩ := by
  have hscheme : schemeSplit ("https://".data ++ (host ++ '/' :: p))
      = ("https".data, "//".data ++ (host ++ '/' :: p)) := by
    rw [schemeSplit,
      splitFirst_append_some ':' "https://".data (host ++ '/' :: p)
        "https".data "//".data rfl]
    rfl
  have hnet : netlocSplit ("//".data ++ (host ++ '/' :: p))
      = (host, '/' :: p) := by
    have hred : netlocSplit ("//".data ++ (host ++ '/' :: p))
        = ((host ++ '/' :: p).takeWhile netChar,
           (host ++ '/' :: p).dropWhile netChar) := rfl
    rw [hred, takeWhile_append_stop netChar host '/' p hhost rfl,
      dropWhile_append_stop netChar host '/' p hhost rfl]
  have hfrag : splitFirst '#' ('/' :: p) = none := by
    apply splitFirst_none
    intro c hc
    rcases List.mem_cons.mp hc with rfl | hc
    · decide
    · exact (hp c hc).1
  have hquery : splitFirst '?' ('/' :: p) = none := by
    apply splitFirst_none
    intro c hc
    rcases List.mem_cons.mp hc with rfl | hc
    · decide
    · exact (hp c hc).2.1
  have hsemi : ('/' :: p).contains ';' = false := by
    apply contains_eq_false
    intro c hc
    rcases List.mem_cons.mp hc with rfl | hc
    · decide
    · exact (hp c hc).2.2
  simp only [urlparseChars, hscheme, hnet]
  split
  · next hcond =>
      exfalso
      rw [hbr1, hbr2] at hcond
      simp at hcond
  · split
    · next hcond2 =>
        exfalso
        rw [hbr1] at hcond2
        simp at hcond2
    · simp only [hfrag, hquery, hsemi]
      rfl

/-- `urlparse` on `https://HOST/P?Q` URLs with a query but no fragment
or parameters. -/
theorem urlparseChars_https_query (host p q : List Char)
    (hhost : ∀ c ∈ host, netChar c = true)
    (hbr1 : host.contains '[' = false) (hbr2 : host.contains ']' = false)
    (hp : ∀ c ∈ p, c ≠ '#' ∧ c ≠ '?' ∧ c ≠ ';')
    (hq : ∀ c ∈ q, c ≠ '#') :
    urlparseChars ("https://".data ++ (host ++ '/' :: (p ++ '?' :: q)))
      = Except.ok ⟨"https".data, host, '/' :: p, [], q, []⟩ := by
  have hscheme : schemeSplit ("https://".data ++ (host ++ '/' :: (p ++ '?' :: q)))
      = ("https".data, "//".data ++ (host ++ '/' :: (p ++ '?' :: q))) := by
    rw [schemeSplit,
      splitFirst_append_some ':' "https://".data (host ++ '/' :: (p ++ '?' :: q))
        "https".data "//".data rfl]
    rfl
  have hnet : netlocSplit ("//".data ++ (host ++ '/' :: (p ++ '?' :: q)))
      = (host, '/' :: (p ++ '?' :: q)) := by
    have hred : netlocSplit ("//".data ++ (host ++ '/' :: (p ++ '?' :: q)))
        = ((host ++ '/' :: (p ++ '?' :: q)).takeWhile netChar,
           (host ++ '/' :: (p ++ '?' :: q)).dropWhile netChar) := rfl
    rw [hred, takeWhile_append_stop netChar host '/' (p ++ '?' :: q) hhost rfl,
      dropWhile_append_stop netChar host '/' (p ++ '?' :: q) hhost rfl]
  have hfrag : splitFirst '#' ('/' :: (p ++ '?' :: q)) = none := by
    apply splitFirst_none
    intro c hc
    rcases List.mem_cons.mp hc with rfl | hc
    · decide
    rcases List.mem_append.mp hc with hc | hc
    · exact (hp c hc).1
    rcases List.mem_cons.mp hc with rfl | hc
    · decide
    · exact hq c hc
  have hquery : splitFirst '?' (('/' :: p) ++ '?' :: q) = some ('/' :: p, q) := by
    apply splitFirst_append_sep
    intro c hc
    rcases List.mem_cons.mp hc with rfl | hc
    · decide
    · exact (hp c hc).2.1
  have hsemi : ('/' :: p).contains ';' = false := by
    apply contains_eq_false
    intro c hc
    rcases List.mem_cons.mp hc with rfl | hc
    · decide
    · exact (hp c hc).2.2
  simp only [urlparseChars, hscheme, hnet]
  split
  · next hcond =>
      rw [hbr1, hbr2] at hcond
      rcases hcond with ⟨h1, _⟩ | ⟨h1, _⟩ <;> exact absurd h1 (by decide)
  · split
    · next hcond2 =>
        exfalso
        rw [hbr1] at hcond2
        simp at hcond2
    · have hquery2 : splitFirst '?' ('/' :: (p ++ '?' :: q)) = some ('/' :: p, q) :=
        hquery
      simp only [hfrag, hquery2, hsemi]
      rfl

/-! ## `parse_qs` on the watch-shape queries -/

/-- Word-only identifiers contain no separator characters. -/
theorem word_ne_of (idl : List Char) (hw : ∀ c ∈ idl, wordChar c = true)
    (d : Char) (hd : wordChar d = false) : ∀ c ∈ idl, c ≠ d :=
  fun c hc => wordChar_ne c d (hw c hc) hd

/-- `parse_qs` lookup of `v` on the query `v=ID`. -/
theorem qsV_v_only (idl : List Char) (hw : ∀ c ∈ idl, wordChar c = true)
    (hne : idl ≠ []) : qsV ('v' :: '=' :: idl) = some idl := by
  have h1 : splitAll '&' ('v' :: '=' :: idl) = ['v' :: '=' :: idl] := by
    have h0 : splitAll '&' ('v' :: '=' :: idl)
        = splitAllAux '&' idl ['=', 'v'] := rfl
    rw [h0, splitAllAux_no_sep '&' idl ['=', 'v'] (word_ne_of idl hw '&' (by decide))]
    rfl
  have h2 : splitFirst '=' ('v' :: '=' :: idl) = some (['v'], idl) := rfl
  rw [qsV, parseQsl, h1, List.filterMap_cons]
  rw [if_neg (by simp), h2]
  dsimp only
  rw [if_neg hne]
  rw [show unquotePlus ['v'] = ['v'] from rfl, unquotePlus_word idl hw]
  rfl

/-- `parse_qs` lookup of `v` on the query `v=ID&t=30s`. -/
theorem qsV_v_first (idl : List Char) (hw : ∀ c ∈ idl, wordChar c = true)
    (hne : idl ≠ []) :
    qsV ('v' :: '=' :: (idl ++ '&' :: "t=30s".data)) = some idl := by
  have h1 : splitAll '&' ('v' :: '=' :: (idl ++ '&' :: "t=30s".data))
      = [('v' :: '=' :: idl), "t=30s".data] := by
    have h0 : splitAll '&' ('v' :: '=' :: (idl ++ '&' :: "t=30s".data))
        = splitAllAux '&' (idl ++ '&' :: "t=30s".data) ['=', 'v'] := rfl
    rw [h0, splitAllAux_sep_boundary '&' idl "t=30s".data ['=', 'v']
      (word_ne_of idl hw '&' (by decide))]
    rw [splitAllAux_no_sep '&' "t=30s".data [] (by decide)]
    rfl
  have h2 : splitFirst '=' ('v' :: '=' :: idl) = some (['v'], idl) := rfl
  rw [qsV, parseQsl, h1, List.filterMap_cons]
  dsimp only
  rw [if_neg (by simp), h2]
  dsimp only
  rw [if_neg hne]
  rw [show unquotePlus ['v'] = ['v'] from rfl, unquotePlus_word idl hw]
  rw [List.filterMap_cons]
  dsimp only
  rw [if_neg (by simp),
    show splitFirst '=' "t=30s".data = some (['t'], "30s".data) from rfl]
  dsimp only
  rw [if_neg (by simp)]
  rfl

/-- `parse_qs` lookup of `v` on the query `t=30s&v=ID`. -/
theorem qsV_v_second (idl : List Char) (hw : ∀ c ∈ idl, wordChar c = true)
    (hne : idl ≠ []) :
    qsV ("t=30s&v=".data ++ idl) = some idl := by
  have h1 : splitAll '&' ("t=30s&v=".data ++ idl)
      = ["t=30s".data, 'v' :: '=' :: idl] := by
    have h0 : splitAll '&' ("t=30s&v=".data ++ idl)
        = "t=30s".data :: splitAllAux '&' idl ['=', 'v'] := rfl
    rw [h0, splitAllAux_no_sep '&' idl ['=', 'v'] (word_ne_of idl hw '&' (by decide))]
    rfl
  have h2 : splitFirst '=' ('v' :: '=' :: idl) = some (['v'], idl) := rfl
  rw [qsV, parseQsl, h1, List.filterMap_cons]
  dsimp only
  rw [if_neg (by simp),
    show splitFirst '=' "t=30s".data = some (['t'], "30s".data) from rfl]
  dsimp only
  rw [if_neg (by simp)]
  rw [List.filterMap_cons]
  dsimp only
  rw [if_neg (by simp), h2]
  dsimp only
  rw [if_neg hne]
  rw [show unquotePlus ['v'] = ['v'] from rfl, unquotePlus_word idl hw]
  rfl

/-! ## `pathBranch` on the standard URL shapes -/

/-- `dropWhile` of the slash test is the identity on word-only lists. -/
theorem dropWhile_slash_word (l : List Char) (hw : ∀ c ∈ l, wordChar c = true) :
    l.dropWhile (· = '/') = l := by
  cases l with
  | nil => rfl
  | cons c cs =>
    exact List.dropWhile_cons_of_neg (by
      simpa using wordChar_ne c '/' (hw c (List.mem_cons_self _ _)) (by decide))

/-- `strip('/')` of a slash followed by a word-only identifier. -/
theorem stripChar_slash_word (idl : List Char)
    (hw : ∀ c ∈ idl, wordChar c = true) :
    stripChar '/' ('/' :: idl) = idl := by
  rw [stripChar, List.dropWhile_cons_of_pos (by decide),
    dropWhile_slash_word idl hw,
    dropWhile_slash_word idl.reverse
      (fun c hc => hw c (List.mem_reverse.mp hc)),
    List.reverse_reverse]

/-- `strip('/')` of a slash, a word-only identifier and a trailing
slash. -/
theorem stripChar_slash_word_trail (idl : List Char)
    (hw : ∀ c ∈ idl, wordChar c = true) (hne : idl ≠ []) :
    stripChar '/' ('/' :: (idl ++ ['/'])) = idl := by
  obtain ⟨c, cs, rfl⟩ : ∃ c cs, idl = c :: cs := by
    cases idl with
    | nil => exact absurd rfl hne
    | cons c cs => exact ⟨c, cs, rfl⟩
  have hwrc : ∀ x ∈ cs.reverse ++ [c], wordChar x = true := by
    intro x hx
    rcases List.mem_append.mp hx with hx | hx
    · exact hw x (List.mem_cons_of_mem _ (List.mem_reverse.mp hx))
    · rw [List.mem_singleton.mp hx]
      exact hw c (List.mem_cons_self _ _)
  have hrev : (c :: (cs ++ ['/'])).reverse = '/' :: (cs.reverse ++ [c]) := by
    simp
  rw [stripChar, List.dropWhile_cons_of_pos (by decide),
    show (c :: cs) ++ ['/'] = c :: (cs ++ ['/']) from rfl,
    List.dropWhile_cons_of_neg (by
      simpa using wordChar_ne c '/' (hw c (List.mem_cons_self _ _)) (by decide)),
    hrev, List.dropWhile_cons_of_pos (by decide),
    dropWhile_slash_word (cs.reverse ++ [c]) hwrc]
  simp

/-- The `youtu.be` branch of the URL-shape dispatch. -/
theorem pathBranch_youtube_short (T : List Char) :
    pathBranch ⟨"https".data, "youtu.be".data, '/' :: T, [], [], []⟩
      = some (stripChar '/' ('/' :: T)) := by
  rw [pathBranch]
  dsimp only
  rw [if_pos (by decide)]

/-- The canonical watch branch of the URL-shape dispatch. -/
theorem pathBranch_watch (Q : List Char) :
    pathBranch ⟨"https".data, "www.youtube.com".data, '/' :: "watch".data, [], Q, []⟩
      = qsV Q := by
  rw [pathBranch]
  dsimp only
  rw [if_neg (by decide), if_pos (by decide), if_pos (by decide)]

/-- The shorts branch of the URL-shape dispatch. -/
theorem pathBranch_shorts (T : List Char) :
    pathBranch ⟨"https".data, "www.youtube.com".data, "/shorts/".data ++ T, [], [], []⟩
      = some ((splitAll '/' ("/shorts/".data ++ T)).getD 2 []) := by
  have hwatch : ¬("/shorts/".data ++ T = "/watch".data) := by
    intro h
    have h1 := congrArg (fun l => l.get? 1) h
    rw [show ((fun l => l.get? 1) ("/shorts/".data ++ T)) = some 's' from rfl,
      show ((fun l => l.get? 1) "/watch".data) = some 'w' from rfl] at h1
    exact absurd h1 (by decide)
  rw [pathBranch]
  dsimp only
  rw [if_neg (by decide), if_pos (by decide), if_neg hwatch,
    if_pos (by rw [isPrefixOf_append_self "/shorts/".data T]; rfl)]

/-- The live branch of the URL-shape dispatch. -/
theorem pathBranch_live (T : List Char) :
    pathBranch ⟨"https".data, "www.youtube.com".data, "/live/".data ++ T, [], [], []⟩
      = some ((splitAll '/' ("/live/".data ++ T)).getD 2 []) := by
  have hwatch : ¬("/live/".data ++ T = "/watch".data) := by
    intro h
    have h1 := congrArg (fun l => l.get? 1) h
    rw [show ((fun l => l.get? 1) ("/live/".data ++ T)) = some 'l' from rfl,
      show ((fun l => l.get? 1) "/watch".data) = some 'w' from rfl] at h1
    exact absurd h1 (by decide)
  have hpref : ("/shorts/".data.isPrefixOf ("/live/".data ++ T)) = false := rfl
  rw [pathBranch]
  dsimp only
  rw [if_neg (by decide), if_pos (by decide), if_neg hwatch,
    if_pos (by rw [hpref, isPrefixOf_append_self "/live/".data T]; rfl)]

/-- The embed shape falls through the URL-shape dispatch to the regex
patterns. -/
theorem pathBranch_embed (T : List Char) :
    pathBranch ⟨"https".data, "www.youtube.com".data, "/embed/".data ++ T, [], [], []⟩
      = none := by
  have hwatch : ¬("/embed/".data ++ T = "/watch".data) := by
    intro h
    have h1 := congrArg (fun l => l.get? 1) h
    rw [show ((fun l => l.get? 1) ("/embed/".data ++ T)) = some 'e' from rfl,
      show ((fun l => l.get? 1) "/watch".data) = some 'w' from rfl] at h1
    exact absurd h1 (by decide)
  have hp1 : ("/shorts/".data.isPrefixOf ("/embed/".data ++ T)) = false := rfl
  have hp2 : ("/live/".data.isPrefixOf ("/embed/".data ++ T)) = false := rfl
  rw [pathBranch]
  dsimp only
  rw [if_neg (by decide), if_pos (by decide), if_neg hwatch,
    if_neg (by rw [hp1, hp2]; simp)]

/-- The `/v/` shape falls through the URL-shape dispatch to the regex
patterns. -/
theorem pathBranch_vpath (T : List Char) :
    pathBranch ⟨"https".data, "www.youtube.com".data, "/v/".data ++ T, [], [], []⟩
      = none := by
  have hwatch : ¬("/v/".data ++ T = "/watch".data) := by
    intro h
    have h1 := congrArg (fun l => l.get? 1) h
    rw [show ((fun l => l.get? 1) ("/v/".data ++ T)) = some 'v' from rfl,
      show ((fun l => l.get? 1) "/watch".data) = some 'w' from rfl] at h1
    exact absurd h1 (by decide)
  have hp1 : ("/shorts/".data.isPrefixOf ("/v/".data ++ T)) = false := rfl
  have hp2 : ("/live/".data.isPrefixOf ("/v/".data ++ T)) = false := rfl
  rw [pathBranch]
  dsimp only
  rw [if_neg (by decide), if_pos (by decide), if_neg hwatch,
    if_neg (by rw [hp1, hp2]; simp)]

/-! ## The regex fallback on the embed and `/v/` shapes -/

/-- A successful try at the current position ends the scan. -/
theorem reFind_cons_found (lits : List (List Char)) (x : Char)
    (rest cap : List Char) (h : reTry lits (x :: rest) = some cap) :
    reFind lits (x :: rest) = some cap := by
  rw [reFind, h]

/-- A single-literal pattern matches at the start of its own literal,
capturing the maximal word run after it. -/
theorem reTry_self (lit : List Char) (c : Char) (cs : List Char)
    (hw : wordChar c = true) :
    reTry [lit] (lit ++ (c :: cs)) = some ((c :: cs).takeWhile wordChar) := by
  rw [reTry, List.findSome?_cons]
  rw [if_pos (isPrefixOf_append_self lit (c :: cs)), List.drop_left]
  dsimp only
  rw [if_pos hw]

/-- Every regex pattern literal of `extract_video_id` contains a
non-benign character (its dot), so none can match inside the identifier
region. -/
theorem patterns_not_benign :
    ∀ pat ∈ patterns, ∀ lit ∈ pat, ∃ d ∈ lit, benignChar d = false := by
  decide

/-- The regex fallback on `https://www.youtube.com/embed/ID`. -/
theorem reFallback_embed (tail : List Char)
    (hb : ∀ x ∈ tail, benignChar x = true) (c : Char) (cs : List Char)
    (htail : tail = c :: cs) (hw : wordChar c = true) :
    reFallback ("https://www.youtube.com/embed/".data ++ tail)
      = some (tail.takeWhile wordChar) := by
  have hbenign : ∀ pat ∈ patterns, reFind pat tail = none := fun pat hp =>
    reFind_none_benign pat tail hb (patterns_not_benign pat hp)
  have hA : reFind ["youtube.com/watch?v=".data, "youtu.be/".data]
      ("https://www.youtube.com/embed/".data ++ tail)
      = reFind ["youtube.com/watch?v=".data, "youtu.be/".data] tail := rfl
  have hB : reFind ["youtube.com/shorts/".data]
      ("https://www.youtube.com/embed/".data ++ tail)
      = reFind ["youtube.com/shorts/".data] tail := rfl
  have hC : reFind ["youtube.com/live/".data]
      ("https://www.youtube.com/embed/".data ++ tail)
      = reFind ["youtube.com/live/".data] tail := rfl
  have hD : reFind ["youtube.com/embed/".data]
      ("https://www.youtube.com/embed/".data ++ tail)
      = some (tail.takeWhile wordChar) := by
    subst htail
    have h1 : reFind ["youtube.com/embed/".data]
        ("https://www.youtube.com/embed/".data ++ (c :: cs))
        = reFind ["youtube.com/embed/".data]
            ("youtube.com/embed/".data ++ (c :: cs)) := rfl
    rw [h1]
    exact reFind_cons_found _ _ _ _ (reTry_self "youtube.com/embed/".data c cs hw)
  rw [reFallback, patterns, List.findSome?_cons]
  dsimp only
  rw [hA, hbenign _ (by simp [patterns]), List.findSome?_cons]
  dsimp only
  rw [hB, hbenign _ (by simp [patterns]), List.findSome?_cons]
  dsimp only
  rw [hC, hbenign _ (by simp [patterns]), List.findSome?_cons]
  dsimp only
  rw [hD]

/-- The regex fallback on `https://www.youtube.com/v/ID`. -/
theorem reFallback_vpath (tail : List Char)
    (hb : ∀ x ∈ tail, benignChar x = true) (c : Char) (cs : List Char)
    (htail : tail = c :: cs) (hw : wordChar c = true) :
    reFallback ("https://www.youtube.com/v/".data ++ tail)
      = some (tail.takeWhile wordChar) := by
  have hbenign : ∀ pat ∈ patterns, reFind pat tail = none := fun pat hp =>
    reFind_none_benign pat tail hb (patterns_not_benign pat hp)
  have hA : reFind ["youtube.com/watch?v=".data, "youtu.be/".data]
      ("https://www.youtube.com/v/".data ++ tail)
      = reFind ["youtube.com/watch?v=".data, "youtu.be/".data] tail := rfl
  have hB : reFind ["youtube.com/shorts/".data]
      ("https://www.youtube.com/v/".data ++ tail)
      = reFind ["youtube.com/shorts/".data] tail := rfl
  have hC : reFind ["youtube.com/live/".data]
      ("https://www.youtube.com/v/".data ++ tail)
      = reFind ["youtube.com/live/".data] tail := rfl
  have hD : reFind ["youtube.com/embed/".data]
      ("https://www.youtube.com/v/".data ++ tail)
      = reFind ["youtube.com/embed/".data] tail := rfl
  have hE : reFind ["youtube.com/v/".data]
      ("https://www.youtube.com/v/".data ++ tail)
      = some (tail.takeWhile wordChar) := by
    subst htail
    have h1 : reFind ["youtube.com/v/".data]
        ("https://www.youtube.com/v/".data ++ (c :: cs))
        = reFind ["youtube.com/v/".data]
            ("youtube.com/v/".data ++ (c :: cs)) := rfl
    rw [h1]
    exact reFind_cons_found _ _ _ _ (reTry_self "youtube.com/v/".data c cs hw)
  rw [reFallback, patterns, List.findSome?_cons]
  dsimp only
  rw [hA, hbenign _ (by simp [patterns]), List.findSome?_cons]
  dsimp only
  rw [hB, hbenign _ (by simp [patterns]), List.findSome?_cons]
  dsimp only
  rw [hC, hbenign _ (by simp [patterns]), List.findSome?_cons]
  dsimp only
  rw [hD, hbenign _ (by simp [patterns]), List.findSome?_cons]
  dsimp only
  rw [hE]

/-! ## `extract_video_id` on the standard URL shapes -/

/-- Dispatch result when the URL parses and the shape dispatch hits. -/
theorem extract_ok_of (url : String) (u : UrlParts) (vid : List Char)
    (hparse : urlparseChars url.data = Except.ok u)
    (hpath : pathBranch u = some vid) :
    extract_video_id url = Except.ok (String.mk vid) := by
  rw [extract_video_id, hparse]
  dsimp only
  rw [hpath]

/-- Dispatch result when the URL parses, the shape dispatch misses and
the regex fallback hits. -/
theorem extract_ok_of_re (url : String) (u : UrlParts) (vid : List Char)
    (hparse : urlparseChars url.data = Except.ok u)
    (hpath : pathBranch u = none)
    (hre : reFallback url.data = some vid) :
    extract_video_id url = Except.ok (String.mk vid) := by
  rw [extract_video_id, hparse]
  dsimp only
  rw [hpath]
  dsimp only
  rw [hre]

/-- Word-only identifiers avoid the fragment, query and parameter
separators. -/
theorem word_path_ok (idl : List Char) (hw : ∀ c ∈ idl, wordChar c = true) :
    ∀ c ∈ idl, c ≠ '#' ∧ c ≠ '?' ∧ c ≠ ';' :=
  fun c hc => ⟨wordChar_ne c '#' (hw c hc) (by decide),
    wordChar_ne c '?' (hw c hc) (by decide),
    wordChar_ne c ';' (hw c hc) (by decide)⟩

/-- `extract_video_id` on a youtu.be short link. -/
theorem ex_youtu_be (id : String) (hw : ∀ c ∈ id.data, wordChar c = true) :
    extract_video_id ("https://youtu.be/" ++ id) = Except.ok id := by
  have hparse : urlparseChars ("https://youtu.be/" ++ id).data
      = Except.ok ⟨"https".data, "youtu.be".data, '/' :: id.data, [], [], []⟩ := by
    rw [show ("https://youtu.be/" ++ id).data
        = "https://".data ++ ("youtu.be".data ++ '/' :: id.data) from rfl]
    exact urlparseChars_https "youtu.be".data id.data (by decide) (by decide)
      (by decide) (word_path_ok id.data hw)
  have h := extract_ok_of _ _ _ hparse (pathBranch_youtube_short id.data)
  rw [stripChar_slash_word id.data hw, str_mk_data] at h
  exact h

/-- `extract_video_id` on a youtu.be short link with a trailing slash. -/
theorem ex_youtu_be_trail (id : String)
    (hw : ∀ c ∈ id.data, wordChar c = true) (hne : id.data ≠ []) :
    extract_video_id ("https://youtu.be/" ++ id ++ "/") = Except.ok id := by
  have hp : ∀ c ∈ id.data ++ ['/'], c ≠ '#' ∧ c ≠ '?' ∧ c ≠ ';' := by
    intro c hc
    rcases List.mem_append.mp hc with hc | hc
    · exact word_path_ok id.data hw c hc
    · rw [List.mem_singleton.mp hc]
      exact ⟨by decide, by decide, by decide⟩
  have hparse : urlparseChars ("https://youtu.be/" ++ id ++ "/").data
      = Except.ok ⟨"https".data, "youtu.be".data, '/' :: (id.data ++ ['/']),
          [], [], []⟩ := by
    rw [show ("https://youtu.be/" ++ id ++ "/").data
        = "https://".data ++ ("youtu.be".data ++ '/' :: (id.data ++ ['/'])) from rfl]
    exact urlparseChars_https "youtu.be".data (id.data ++ ['/']) (by decide)
      (by decide) (by decide) hp
  have h := extract_ok_of _ _ _ hparse (pathBranch_youtube_short (id.data ++ ['/']))
  rw [stripChar_slash_word_trail id.data hw hne, str_mk_data] at h
  exact h

/-- `extract_video_id` on the canonical watch URL. -/
theorem ex_watch (id : String) (hw : ∀ c ∈ id.data, wordChar c = true)
    (hne : id.data ≠ []) :
    extract_video_id ("https://www.youtube.com/watch?v=" ++ id)
      = Except.ok id := by
  have hq : ∀ c ∈ 'v' :: '=' :: id.data, c ≠ '#' := by
    intro c hc
    rcases List.mem_cons.mp hc with rfl | hc
    · decide
    rcases List.mem_cons.mp hc with rfl | hc
    · decide
    · exact wordChar_ne c '#' (hw c hc) (by decide)
  have hparse : urlparseChars ("https://www.youtube.com/watch?v=" ++ id).data
      = Except.ok ⟨"https".data, "www.youtube.com".data, '/' :: "watch".data,
          [], 'v' :: '=' :: id.data, []⟩ := by
    rw [show ("https://www.youtube.com/watch?v=" ++ id).data
        = "https://".data ++ ("www.youtube.com".data
            ++ '/' :: ("watch".data ++ '?' :: ('v' :: '=' :: id.data))) from rfl]
    exact urlparseChars_https_query "www.youtube.com".data "watch".data
      ('v' :: '=' :: id.data) (by decide) (by decide) (by decide) (by decide) hq
  have hpath : pathBranch ⟨"https".data, "www.youtube.com".data,
      '/' :: "watch".data, [], 'v' :: '=' :: id.data, []⟩ = some id.data := by
    rw [pathBranch_watch]
    exact qsV_v_only id.data hw hne
  have h := extract_ok_of _ _ _ hparse hpath
  rw [str_mk_data] at h
  exact h

/-- `extract_video_id` on a watch URL with a trailing `t` parameter. -/
theorem ex_watch_t (id : String) (hw : ∀ c ∈ id.data, wordChar c = true)
    (hne : id.data ≠ []) :
    extract_video_id ("https://www.youtube.com/watch?v=" ++ id ++ "&t=30s")
      = Except.ok id := by
  have hq : ∀ c ∈ 'v' :: '=' :: (id.data ++ '&' :: "t=30s".data), c ≠ '#' := by
    intro c hc
    rcases List.mem_cons.mp hc with rfl | hc
    · decide
    rcases List.mem_cons.mp hc with rfl | hc
    · decide
    rcases List.mem_append.mp hc with hc | hc
    · exact wordChar_ne c '#' (hw c hc) (by decide)
    · exact (by decide : ∀ x ∈ '&' :: "t=30s".data, x ≠ '#') c hc
  have hparse : urlparseChars
      ("https://www.youtube.com/watch?v=" ++ id ++ "&t=30s").data
      = Except.ok ⟨"https".data, "www.youtube.com".data, '/' :: "watch".data,
          [], 'v' :: '=' :: (id.data ++ '&' :: "t=30s".data), []⟩ := by
    rw [show ("https://www.youtube.com/watch?v=" ++ id ++ "&t=30s").data
        = "https://".data ++ ("www.youtube.com".data
            ++ '/' :: ("watch".data
              ++ '?' :: ('v' :: '=' :: (id.data ++ '&' :: "t=30s".data)))) from rfl]
    exact urlparseChars_https_query "www.youtube.com".data "watch".data
      ('v' :: '=' :: (id.data ++ '&' :: "t=30s".data)) (by decide) (by decide)
      (by decide) (by decide) hq
  have hpath : pathBranch ⟨"https".data, "www.youtube.com".data,
      '/' :: "watch".data, [], 'v' :: '=' :: (id.data ++ '&' :: "t=30s".data), []⟩
      = some id.data := by
    rw [pathBranch_watch]
    exact qsV_v_first id.data hw hne
  have h := extract_ok_of _ _ _ hparse hpath
  rw [str_mk_data] at h
  exact h

/-- `extract_video_id` on a watch URL with the query parameters
reordered. -/
theorem ex_watch_reorder (id : String)
    (hw : ∀ c ∈ id.data, wordChar c = true) (hne : id.data ≠ []) :
    extract_video_id ("https://www.youtube.com/watch?t=30s&v=" ++ id)
      = Except.ok id := by
  have hq : ∀ c ∈ "t=30s&v=".data ++ id.data, c ≠ '#' := by
    intro c hc
    rcases List.mem_append.mp hc with hc | hc
    · exact (by decide : ∀ x ∈ "t=30s&v=".data, x ≠ '#') c hc
    · exact wordChar_ne c '#' (hw c hc) (by decide)
  have hparse : urlparseChars
      ("https://www.youtube.com/watch?t=30s&v=" ++ id).data
      = Except.ok ⟨"https".data, "www.youtube.com".data, '/' :: "watch".data,
          [], "t=30s&v=".data ++ id.data, []⟩ := by
    rw [show ("https://www.youtube.com/watch?t=30s&v=" ++ id).data
        = "https://".data ++ ("www.youtube.com".data
            ++ '/' :: ("watch".data ++ '?' :: ("t=30s&v=".data ++ id.data))) from rfl]
    exact urlparseChars_https_query "www.youtube.com".data "watch".data
      ("t=30s&v=".data ++ id.data) (by decide) (by decide) (by decide)
      (by decide) hq
  have hpath : pathBranch ⟨"https".data, "www.youtube.com".data,
      '/' :: "watch".data, [], "t=30s&v=".data ++ id.data, []⟩
      = some id.data := by
    rw [pathBranch_watch]
    exact qsV_v_second id.data hw hne
  have h := extract_ok_of _ _ _ hparse hpath
  rw [str_mk_data] at h
  exact h

/-- Path-character side condition for a concrete prefix followed by a
word-only identifier. -/
theorem path_ok_pre (pre idl : List Char)
    (hpre : ∀ c ∈ pre, c ≠ '#' ∧ c ≠ '?' ∧ c ≠ ';')
    (hw : ∀ c ∈ idl, wordChar c = true) :
    ∀ c ∈ pre ++ idl, c ≠ '#' ∧ c ≠ '?' ∧ c ≠ ';' := by
  intro c hc
  rcases List.mem_append.mp hc with hc | hc
  · exact hpre c hc
  · exact word_path_ok idl hw c hc

/-- Path-character side condition with an additional trailing slash. -/
theorem path_ok_pre_trail (pre idl : List Char)
    (hpre : ∀ c ∈ pre, c ≠ '#' ∧ c ≠ '?' ∧ c ≠ ';')
    (hw : ∀ c ∈ idl, wordChar c = true) :
    ∀ c ∈ pre ++ (idl ++ ['/']), c ≠ '#' ∧ c ≠ '?' ∧ c ≠ ';' := by
  intro c hc
  rcases List.mem_append.mp hc with hc | hc
  · exact hpre c hc
  rcases List.mem_append.mp hc with hc | hc
  · exact word_path_ok idl hw c hc
  · rw [List.mem_singleton.mp hc]
    exact ⟨by decide, by decide, by decide⟩

/-- `extract_video_id` on a shorts URL. -/
theorem ex_shorts (id : String) (hw : ∀ c ∈ id.data, wordChar c = true) :
    extract_video_id ("https://www.youtube.com/shorts/" ++ id)
      = Except.ok id := by
  have hparse : urlparseChars ("https://www.youtube.com/shorts/" ++ id).data
      = Except.ok ⟨"https".data, "www.youtube.com".data,
          '/' :: ("shorts/".data ++ id.data), [], [], []⟩ := by
    rw [show ("https://www.youtube.com/shorts/" ++ id).data
        = "https://".data ++ ("www.youtube.com".data
            ++ '/' :: ("shorts/".data ++ id.data)) from rfl]
    exact urlparseChars_https "www.youtube.com".data ("shorts/".data ++ id.data)
      (by decide) (by decide) (by decide)
      (path_ok_pre "shorts/".data id.data (by decide) hw)
  have hsplit : splitAll '/' ("/shorts/".data ++ id.data)
      = [[], "shorts".data, id.data] := by
    rw [show splitAll '/' ("/shorts/".data ++ id.data)
        = [] :: "shorts".data :: splitAllAux '/' id.data [] from rfl,
      splitAllAux_no_sep '/' id.data [] (word_ne_of id.data hw '/' (by decide))]
    rfl
  have hpath : pathBranch ⟨"https".data, "www.youtube.com".data,
      '/' :: ("shorts/".data ++ id.data), [], [], []⟩ = some id.data := by
    have h0 := pathBranch_shorts id.data
    rw [hsplit] at h0
    exact h0
  have h := extract_ok_of _ _ _ hparse hpath
  rw [str_mk_data] at h
  exact h

/-- `extract_video_id` on a shorts URL with a trailing slash. -/
theorem ex_shorts_trail (id : String)
    (hw : ∀ c ∈ id.data, wordChar c = true) :
    extract_video_id ("https://www.youtube.com/shorts/" ++ id ++ "/")
      = Except.ok id := by
  have hparse : urlparseChars
      ("https://www.youtube.com/shorts/" ++ id ++ "/").data
      = Except.ok ⟨"https".data, "www.youtube.com".data,
          '/' :: ("shorts/".data ++ (id.data ++ ['/'])), [], [], []⟩ := by
    rw [show ("https://www.youtube.com/shorts/" ++ id ++ "/").data
        = "https://".data ++ ("www.youtube.com".data
            ++ '/' :: ("shorts/".data ++ (id.data ++ ['/']))) from rfl]
    exact urlparseChars_https "www.youtube.com".data
      ("shorts/".data ++ (id.data ++ ['/'])) (by decide) (by decide) (by decide)
      (path_ok_pre_trail "shorts/".data id.data (by decide) hw)
  have hsplit : splitAll '/' ("/shorts/".data ++ (id.data ++ ['/']))
      = [[], "shorts".data, id.data, []] := by
    rw [show splitAll '/' ("/shorts/".data ++ (id.data ++ ['/']))
        = [] :: "shorts".data :: splitAllAux '/' (id.data ++ ['/']) [] from rfl,
      show id.data ++ ['/'] = id.data ++ '/' :: [] from rfl,
      splitAllAux_sep_boundary '/' id.data [] []
        (word_ne_of id.data hw '/' (by decide))]
    rfl
  have hpath : pathBranch ⟨"https".data, "www.youtube.com".data,
      '/' :: ("shorts/".data ++ (id.data ++ ['/'])), [], [], []⟩
      = some id.data := by
    have h0 := pathBranch_shorts (id.data ++ ['/'])
    rw [hsplit] at h0
    exact h0
  have h := extract_ok_of _ _ _ hparse hpath
  rw [str_mk_data] at h
  exact h

/-- `extract_video_id` on a live URL. -/
theorem ex_live (id : String) (hw : ∀ c ∈ id.data, wordChar c = true) :
    extract_video_id ("https://www.youtube.com/live/" ++ id)
      = Except.ok id := by
  have hparse : urlparseChars ("https://www.youtube.com/live/" ++ id).data
      = Except.ok ⟨"https".data, "www.youtube.com".data,
          '/' :: ("live/".data ++ id.data), [], [], []⟩ := by
    rw [show ("https://www.youtube.com/live/" ++ id).data
        = "https://".data ++ ("www.youtube.com".data
            ++ '/' :: ("live/".data ++ id.data)) from rfl]
    exact urlparseChars_https "www.youtube.com".data ("live/".data ++ id.data)
      (by decide) (by decide) (by decide)
      (path_ok_pre "live/".data id.data (by decide) hw)
  have hsplit : splitAll '/' ("/live/".data ++ id.data)
      = [[], "live".data, id.data] := by
    rw [show splitAll '/' ("/live/".data ++ id.data)
        = [] :: "live".data :: splitAllAux '/' id.data [] from rfl,
      splitAllAux_no_sep '/' id.data [] (word_ne_of id.data hw '/' (by decide))]
    rfl
  have hpath : pathBranch ⟨"https".data, "www.youtube.com".data,
      '/' :: ("live/".data ++ id.data), [], [], []⟩ = some id.data := by
    have h0 := pathBranch_live id.data
    rw [hsplit] at h0
    exact h0
  have h := extract_ok_of _ _ _ hparse hpath
  rw [str_mk_data] at h
  exact h

/-- `extract_video_id` on a live URL with a trailing slash. -/
theorem ex_live_trail (id : String)
    (hw : ∀ c ∈ id.data, wordChar c = true) :
    extract_video_id ("https://www.youtube.com/live/" ++ id ++ "/")
      = Except.ok id := by
  have hparse : urlparseChars
      ("https://www.youtube.com/live/" ++ id ++ "/").data
      = Except.ok ⟨"https".data, "www.youtube.com".data,
          '/' :: ("live/".data ++ (id.data ++ ['/'])), [], [], []⟩ := by
    rw [show ("https://www.youtube.com/live/" ++ id ++ "/").data
        = "https://".data ++ ("www.youtube.com".data
            ++ '/' :: ("live/".data ++ (id.data ++ ['/']))) from rfl]
    exact urlparseChars_https "www.youtube.com".data
      ("live/".data ++ (id.data ++ ['/'])) (by decide) (by decide) (by decide)
      (path_ok_pre_trail "live/".data id.data (by decide) hw)
  have hsplit : splitAll '/' ("/live/".data ++ (id.data ++ ['/']))
      = [[], "live".data, id.data, []] := by
    rw [show splitAll '/' ("/live/".data ++ (id.data ++ ['/']))
        = [] :: "live".data :: splitAllAux '/' (id.data ++ ['/']) [] from rfl,
      show id.data ++ ['/'] = id.data ++ '/' :: [] from rfl,
      splitAllAux_sep_boundary '/' id.data [] []
        (word_ne_of id.data hw '/' (by decide))]
    rfl
  have hpath : pathBranch ⟨"https".data, "www.youtube.com".data,
      '/' :: ("live/".data ++ (id.data ++ ['/'])), [], [], []⟩
      = some id.data := by
    have h0 := pathBranch_live (id.data ++ ['/'])
    rw [hsplit] at h0
    exact h0
  have h := extract_ok_of _ _ _ hparse hpath
  rw [str_mk_data] at h
  exact h

/-- `extract_video_id` on an embed URL. -/
theorem ex_embed (id : String) (hw : ∀ c ∈ id.data, wordChar c = true)
    (hne : id.data ≠ []) :
    extract_video_id ("https://www.youtube.com/embed/" ++ id)
      = Except.ok id := by
  obtain ⟨c, cs, hcs⟩ : ∃ c cs, id.data = c :: cs := by
    cases h : id.data with
    | nil => exact absurd h hne
    | cons c cs => exact ⟨c, cs, rfl⟩
  have hparse : urlparseChars ("https://www.youtube.com/embed/" ++ id).data
      = Except.ok ⟨"https".data, "www.youtube.com".data,
          '/' :: ("embed/".data ++ id.data), [], [], []⟩ := by
    rw [show ("https://www.youtube.com/embed/" ++ id).data
        = "https://".data ++ ("www.youtube.com".data
            ++ '/' :: ("embed/".data ++ id.data)) from rfl]
    exact urlparseChars_https "www.youtube.com".data ("embed/".data ++ id.data)
      (by decide) (by decide) (by decide)
      (path_ok_pre "embed/".data id.data (by decide) hw)
  have hpath : pathBranch ⟨"https".data, "www.youtube.com".data,
      '/' :: ("embed/".data ++ id.data), [], [], []⟩ = none :=
    pathBranch_embed id.data
  have hre : reFallback ("https://www.youtube.com/embed/" ++ id).data
      = some id.data := by
    rw [show ("https://www.youtube.com/embed/" ++ id).data
        = "https://www.youtube.com/embed/".data ++ id.data from rfl,
      reFallback_embed id.data (fun x hx => benign_of_word x (hw x hx)) c cs
        hcs (hw c (hcs ▸ List.mem_cons_self c cs)),
      takeWhile_all wordChar id.data hw]
  have h := extract_ok_of_re _ _ _ hparse hpath hre
  rw [str_mk_data] at h
  exact h

/-- `extract_video_id` on an embed URL with a trailing slash. -/
theorem ex_embed_trail (id : String)
    (hw : ∀ c ∈ id.data, wordChar c = true) (hne : id.data ≠ []) :
    extract_video_id ("https://www.youtube.com/embed/" ++ id ++ "/")
      = Except.ok id := by
  obtain ⟨c, cs, hcs⟩ : ∃ c cs, id.data = c :: cs := by
    cases h : id.data with
    | nil => exact absurd h hne
    | cons c cs => exact ⟨c, cs, rfl⟩
  have hparse : urlparseChars
      ("https://www.youtube.com/embed/" ++ id ++ "/").data
      = Except.ok ⟨"https".data, "www.youtube.com".data,
          '/' :: ("embed/".data ++ (id.data ++ ['/'])), [], [], []⟩ := by
    rw [show ("https://www.youtube.com/embed/" ++ id ++ "/").data
        = "https://".data ++ ("www.youtube.com".data
            ++ '/' :: ("embed/".data ++ (id.data ++ ['/']))) from rfl]
    exact urlparseChars_https "www.youtube.com".data
      ("embed/".data ++ (id.data ++ ['/'])) (by decide) (by decide) (by decide)
      (path_ok_pre_trail "embed/".data id.data (by decide) hw)
  have hpath : pathBranch ⟨"https".data, "www.youtube.com".data,
      '/' :: ("embed/".data ++ (id.data ++ ['/'])), [], [], []⟩ = none :=
    pathBranch_embed (id.data ++ ['/'])
  have hb : ∀ x ∈ id.data ++ ['/'], benignChar x = true := by
    intro x hx
    rcases List.mem_append.mp hx with hx | hx
    · exact benign_of_word x (hw x hx)
    · rw [List.mem_singleton.mp hx]
      rfl
  have hre : reFallback ("https://www.youtube.com/embed/" ++ id ++ "/").data
      = some id.data := by
    rw [show ("https://www.youtube.com/embed/" ++ id ++ "/").data
        = "https://www.youtube.com/embed/".data ++ (id.data ++ ['/'])
        from rfl,
      reFallback_embed (id.data ++ ['/']) hb c (cs ++ ['/'])
        (by rw [hcs]; rfl) (hw c (hcs ▸ List.mem_cons_self c cs)),
      show id.data ++ ['/'] = id.data ++ '/' :: [] from rfl,
      takeWhile_append_stop wordChar id.data '/' [] hw (by decide)]
  have h := extract_ok_of_re _ _ _ hparse hpath hre
  rw [str_mk_data] at h
  exact h

/-- `extract_video_id` on a `/v/` URL. -/
theorem ex_vpath (id : String) (hw : ∀ c ∈ id.data, wordChar c = true)
    (hne : id.data ≠ []) :
    extract_video_id ("https://www.youtube.com/v/" ++ id)
      = Except.ok id := by
  obtain ⟨c, cs, hcs⟩ : ∃ c cs, id.data = c :: cs := by
    cases h : id.data with
    | nil => exact absurd h hne
    | cons c cs => exact ⟨c, cs, rfl⟩
  have hparse : urlparseChars ("https://www.youtube.com/v/" ++ id).data
      = Except.ok ⟨"https".data, "www.youtube.com".data,
          '/' :: ("v/".data ++ id.data), [], [], []⟩ := by
    rw [show ("https://www.youtube.com/v/" ++ id).data
        = "https://".data ++ ("www.youtube.com".data
            ++ '/' :: ("v/".data ++ id.data)) from rfl]
    exact urlparseChars_https "www.youtube.com".data ("v/".data ++ id.data)
      (by decide) (by decide) (by decide)
      (path_ok_pre "v/".data id.data (by decide) hw)
  have hpath : pathBranch ⟨"https".data, "www.youtube.com".data,
      '/' :: ("v/".data ++ id.data), [], [], []⟩ = none :=
    pathBranch_vpath id.data
  have hre : reFallback ("https://www.youtube.com/v/" ++ id).data
      = some id.data := by
    rw [show ("https://www.youtube.com/v/" ++ id).data
        = "https://www.youtube.com/v/".data ++ id.data from rfl,
      reFallback_vpath id.data (fun x hx => benign_of_word x (hw x hx)) c cs
        hcs (hw c (hcs ▸ List.mem_cons_self c cs)),
      takeWhile_all wordChar id.data hw]
  have h := extract_ok_of_re _ _ _ hparse hpath hre
  rw [str_mk_data] at h
  exact h

/-- `extract_video_id` on a `/v/` URL with a trailing slash. -/
theorem ex_vpath_trail (id : String)
    (hw : ∀ c ∈ id.data, wordChar c = true) (hne : id.data ≠ []) :
    extract_video_id ("https://www.youtube.com/v/" ++ id ++ "/")
      = Except.ok id := by
  obtain ⟨c, cs, hcs⟩ : ∃ c cs, id.data = c :: cs := by
    cases h : id.data with
    | nil => exact absurd h hne
    | cons c cs => exact ⟨c, cs, rfl⟩
  have hparse : urlparseChars
      ("https://www.youtube.com/v/" ++ id ++ "/").data
      = Except.ok ⟨"https".data, "www.youtube.com".data,
          '/' :: ("v/".data ++ (id.data ++ ['/'])), [], [], []⟩ := by
    rw [show ("https://www.youtube.com/v/" ++ id ++ "/").data
        = "https://".data ++ ("www.youtube.com".data
            ++ '/' :: ("v/".data ++ (id.data ++ ['/']))) from rfl]
    exact urlparseChars_https "www.youtube.com".data
      ("v/".data ++ (id.data ++ ['/'])) (by decide) (by decide) (by decide)
      (path_ok_pre_trail "v/".data id.data (by decide) hw)
  have hpath : pathBranch ⟨"https".data, "www.youtube.com".data,
      '/' :: ("v/".data ++ (id.data ++ ['/'])), [], [], []⟩ = none :=
    pathBranch_vpath (id.data ++ ['/'])
  have hb : ∀ x ∈ id.data ++ ['/'], benignChar x = true := by
    intro x hx
    rcases List.mem_append.mp hx with hx | hx
    · exact benign_of_word x (hw x hx)
    · rw [List.mem_singleton.mp hx]
      rfl
  have hre : reFallback ("https://www.youtube.com/v/" ++ id ++ "/").data
      = some id.data := by
    rw [show ("https://www.youtube.com/v/" ++ id ++ "/").data
        = "https://www.youtube.com/v/".data ++ (id.data ++ ['/']) from rfl,
      reFallback_vpath (id.data ++ ['/']) hb c (cs ++ ['/'])
        (by rw [hcs]; rfl) (hw c (hcs ▸ List.mem_cons_self c cs)),
      show id.data ++ ['/'] = id.data ++ '/' :: [] from rfl,
      takeWhile_append_stop wordChar id.data '/' [] hw (by decide)]
  have h := extract_ok_of_re _ _ _ hparse hpath hre
  rw [str_mk_data] at h
  exact h

/-! ## Claims C5 and C6 -/

/-- **C6 (amended).** On every recognized URL shape — youtu.be short
link, watch path with a `v` query parameter (first, last or only), and
`/shorts/`, `/live/`, `/embed/` and `/v/` paths, each with or without a
trailing slash — `extract_video_id` returns exactly the embedded path
segment or parameter value, for every identifier made of `[\w-]`
characters; in particular the two scenario URLs yield `D9Ihs241zeg` and
`abc123`.  (Trailing-slash tolerance does NOT extend to the watch shape:
see the counterexample.) -/
theorem C6_recognized_shapes (id : String)
    (hw : ∀ c ∈ id.data, wordChar c = true) (hne : id.data ≠ []) :
    extract_video_id ("https://youtu.be/" ++ id) = Except.ok id ∧
    extract_video_id ("https://youtu.be/" ++ id ++ "/") = Except.ok id ∧
    extract_video_id ("https://www.youtube.com/watch?v=" ++ id)
      = Except.ok id ∧
    extract_video_id ("https://www.youtube.com/watch?v=" ++ id ++ "&t=30s")
      = Except.ok id ∧
    extract_video_id ("https://www.youtube.com/watch?t=30s&v=" ++ id)
      = Except.ok id ∧
    extract_video_id ("https://www.youtube.com/shorts/" ++ id)
      = Except.ok id ∧
    extract_video_id ("https://www.youtube.com/shorts/" ++ id ++ "/")
      = Except.ok id ∧
    extract_video_id ("https://www.youtube.com/live/" ++ id)
      = Except.ok id ∧
    extract_video_id ("https://www.youtube.com/live/" ++ id ++ "/")
      = Except.ok id ∧
    extract_video_id ("https://www.youtube.com/embed/" ++ id)
      = Except.ok id ∧
    extract_video_id ("https://www.youtube.com/embed/" ++ id ++ "/")
      = Except.ok id ∧
    extract_video_id ("https://www.youtube.com/v/" ++ id) = Except.ok id ∧
    extract_video_id ("https://www.youtube.com/v/" ++ id ++ "/")
      = Except.ok id ∧
    extract_video_id "https://youtu.be/D9Ihs241zeg"
      = Except.ok "D9Ihs241zeg" ∧
    extract_video_id "https://www.youtube.com/watch?v=abc123&t=30s"
      = Except.ok "abc123" :=
  ⟨ex_youtu_be id hw, ex_youtu_be_trail id hw hne, ex_watch id hw hne,
   ex_watch_t id hw hne, ex_watch_reorder id hw hne, ex_shorts id hw,
   ex_shorts_trail id hw, ex_live id hw, ex_live_trail id hw,
   ex_embed id hw hne, ex_embed_trail id hw hne, ex_vpath id hw hne,
   ex_vpath_trail id hw hne,
   by
    rw [show ("https://youtu.be/D9Ihs241zeg" : String)
        = "https://youtu.be/" ++ "D9Ihs241zeg" from rfl]
    exact ex_youtu_be "D9Ihs241zeg" (by decide),
   by
    rw [show ("https://www.youtube.com/watch?v=abc123&t=30s" : String)
        = "https://www.youtube.com/watch?v=" ++ "abc123" ++ "&t=30s" from rfl]
    exact ex_watch_t "abc123" (by decide) (by decide)⟩

/-- Instance of the C6 shape theorem at the identifier `abc123`. -/
theorem C6_recognized_shapes_witness :
    ((∀ c ∈ "abc123".data, wordChar c = true) ∧ "abc123".data ≠ []) ∧
    extract_video_id ("https://www.youtube.com/shorts/" ++ "abc123")
      = Except.ok "abc123" :=
  ⟨⟨by decide, by decide⟩,
   (C6_recognized_shapes "abc123" (by decide) (by decide)).2.2.2.2.2.1⟩

/-- **C6 counterexample.** A trailing slash on the watch path defeats
the extraction: `/watch/` fails the `path == "/watch"` test and the raw
URL contains `watch/?v=`, which no regex literal matches, so the
sentinel comes back instead of `abc123`.  The claimed trailing-slash
independence fails for the watch shape. -/
theorem C6_counterexample :
    extract_video_id "https://www.youtube.com/watch/?v=abc123"
      = Except.ok "D9Ihs241zeg" ∧
    (Except.ok "D9Ihs241zeg" : Except String String)
      ≠ Except.ok "abc123" := by
  refine ⟨rfl, fun h => absurd (Except.ok.inj h) (by decide)⟩

/-- **C5 (amended).** `extract_video_id` is not total: `urlparse`
`ValueError`s escape it — the function has no exception handling — and
there are several error families: the
unbalanced bracket (`Invalid IPv6 URL`, the counterexample below) and
the bracketed hosts that are no valid IP address, as in
`https://[a]`.  What does hold: the parser is the only source of
failure (every error of `extract_video_id` is the error `urlparse`
produced, and whenever `urlparse` succeeds some identifier comes back),
and every URL that parses but matches no recognized shape and no regex
pattern yields the fixed sentinel `D9Ihs241zeg` — as the unrecognized
input `hello` does, and as `https://[::1]`, whose valid bracketed IPv6
host passes the bracket check, does too. -/
theorem C5_errors_from_urlparse :
    (∀ (url : String) (u : UrlParts), urlparseChars url.data = Except.ok u →
      ∃ vid, extract_video_id url = Except.ok vid) ∧
    (∀ (url : String) (e : String), extract_video_id url = Except.error e →
      urlparseChars url.data = Except.error e) ∧
    (∀ (url : String) (u : UrlParts),
      urlparseChars url.data = Except.ok u → pathBranch u = none →
      reFallback url.data = none →
      extract_video_id url = Except.ok "D9Ihs241zeg") ∧
    extract_video_id "hello" = Except.ok "D9Ihs241zeg" ∧
    extract_video_id "https://[a]" = Except.error
      (sqt ++ "a" ++ sqt ++ " does not appear to be an IPv4 or IPv6 address") ∧
    extract_video_id "https://[::1]" = Except.ok "D9Ihs241zeg" := by
  refine ⟨fun url u hp => ?_, fun url e h => ?_, fun url u hp hb hr => ?_,
    rfl, rfl, rfl⟩
  · rw [extract_video_id, hp]
    dsimp only
    cases hb : pathBranch u with
    | some vid => exact ⟨String.mk vid, rfl⟩
    | none =>
      cases hr : reFallback url.data with
      | some vid => exact ⟨String.mk vid, rfl⟩
      | none => exact ⟨"D9Ihs241zeg", rfl⟩
  · rw [extract_video_id] at h
    cases hp : urlparseChars url.data with
    | error e2 =>
      rw [hp] at h
      dsimp only at h
      rw [Except.error.inj h]
    | ok u2 =>
      rw [hp] at h
      dsimp only at h
      cases hb : pathBranch u2 with
      | some vid =>
        rw [hb] at h
        exact Except.noConfusion h
      | none =>
        rw [hb] at h
        dsimp only at h
        cases hr : reFallback url.data with
        | some vid =>
          rw [hr] at h
          exact Except.noConfusion h
        | none =>
          rw [hr] at h
          exact Except.noConfusion h
  · rw [extract_video_id, hp]
    dsimp only
    rw [hb]
    dsimp only
    rw [hr]

/-- Instance of the C5 sentinel clause at the unrecognized input
`"abc"`. -/
theorem C5_errors_from_urlparse_witness :
    urlparseChars "abc".data
      = Except.ok ⟨[], [], "abc".data, [], [], []⟩ ∧
    pathBranch ⟨[], [], "abc".data, [], [], []⟩ = none ∧
    reFallback "abc".data = none ∧
    extract_video_id "abc" = Except.ok "D9Ihs241zeg" :=
  ⟨rfl, rfl, rfl,
   C5_errors_from_urlparse.2.2.1 "abc" ⟨[], [], "abc".data, [], [], []⟩
     rfl rfl rfl⟩

/-- **C5 counterexample.** `extract_video_id` is not total: on the
input `https://[` the unbalanced bracket makes `urlparse` raise
`ValueError: Invalid IPv6 URL`, which propagates out of the function
(`youtube_client.py` line 60, with no surrounding try/except). -/
theorem C5_counterexample :
    extract_video_id "https://[" = Except.error "Invalid IPv6 URL" := rfl

end Spec2Proof
